import Mathlib

/-!
Verification of the Slitherlink constraint-propagation solver
(`src/main.cpp`, the canonical path of the repository).

The embedding below mirrors the C++ structures and functions:
`Grid`, `Edge`, `State`, `buildEdges` (edge list and incidence tables),
`initialState`, `applyDecision`, `quickValidityCheck`,
`isDefinitelyUnsolvable`, `propagateConstraints`, `estimateBranches`,
`selectNextEdge`, the final validator and cycle extractor inside
`finalCheckAndStore`, `isCanonicalSolution`, and the sequential
semantics of `search`/`run`.

Machine integers are modelled as `Int` (the C++ code uses `int` and
`char` values 0 / 1 / -1 and never approaches overflow on the grids
considered).  The imperative worklist loops of the propagator, the DFS
of the validator, the cycle walk and the recursive search are modelled
with an explicit fuel parameter; exhausted fuel is reported as failure,
which never fires on the concrete runs below and only makes soundness
statements stronger.  Parallelism in `search` only reorders subtree
exploration; the embedding executes the two children in the sequential
order of the source (OFF child first, then ON child).
-/

namespace Slitherlink

/-- Grid of the puzzle: `n` rows, `m` columns, row-major clue list,
`-1` meaning "no clue" (mirrors `struct Grid`). -/
structure Grid where
  n : Nat
  m : Nat
  clues : List Int
deriving DecidableEq, Repr

/-- `Grid::cellIndex` of the source. -/
def Grid.cellIndex (g : Grid) (r c : Nat) : Nat := r * g.m + c

/-- Clue lookup `grid.clues[cell]`; out-of-range reads never occur on
well-formed grids, the default `-1` (no clue) keeps the model total. -/
def clueAt (g : Grid) (cell : Nat) : Int := g.clues.getD cell (-1)

/-- An edge of the lattice: endpoints `u`, `v` (point ids) and the up to
two adjacent cells, `-1` meaning absent (mirrors `struct Edge`). -/
structure Edge where
  u : Nat
  v : Nat
  cellA : Int
  cellB : Int
deriving DecidableEq, Repr

/-- Point id `r * (m+1) + c` (the `pointId` lambda in `buildEdges`). -/
def pointId (m r c : Nat) : Nat := r * (m + 1) + c

/-- The horizontal edge at row `r`, column `c` as built by the first
loop of `buildEdges`. -/
def hEdge (g : Grid) (r c : Nat) : Edge :=
  { u := pointId g.m r c
    v := pointId g.m r (c + 1)
    cellA := if 0 < r then ((g.cellIndex (r - 1) c : Nat) : Int) else -1
    cellB := if r < g.n then ((g.cellIndex r c : Nat) : Int) else -1 }

/-- The vertical edge at row `r`, column `c` as built by the second
loop of `buildEdges`. -/
def vEdge (g : Grid) (r c : Nat) : Edge :=
  { u := pointId g.m r c
    v := pointId g.m (r + 1) c
    cellA := if 0 < c then ((g.cellIndex r (c - 1) : Nat) : Int) else -1
    cellB := if c < g.m then ((g.cellIndex r c : Nat) : Int) else -1 }

/-- Row-major traversal of the horizontal edge positions
(`for r in 0..=n, for c in 0..<m`). -/
def hPositions (g : Grid) : List (Nat × Nat) :=
  (List.range (g.n + 1)).flatMap (fun r => (List.range g.m).map (fun c => (r, c)))

/-- Row-major traversal of the vertical edge positions
(`for r in 0..<n, for c in 0..=m`). -/
def vPositions (g : Grid) : List (Nat × Nat) :=
  (List.range g.n).flatMap (fun r => (List.range (g.m + 1)).map (fun c => (r, c)))

/-- The edge vector of `buildEdges`: horizontal edges first in row-major
order, then vertical edges in row-major order. -/
def edgesOf (g : Grid) : List Edge :=
  (hPositions g).map (fun rc => hEdge g rc.1 rc.2)
    ++ (vPositions g).map (fun rc => vEdge g rc.1 rc.2)

def numPoints (g : Grid) : Nat := (g.n + 1) * (g.m + 1)

def numCells (g : Grid) : Nat := g.n * g.m

def numEdges (g : Grid) : Nat := (edgesOf g).length

/-- Edge lookup `edges[i]`; the default is never hit for `i < numEdges`. -/
def edgeAt (g : Grid) (i : Nat) : Edge := (edgesOf g).getD i ⟨0, 0, -1, -1⟩

/-- `horizEdgeIndex[r*m+c]`: the horizontal edge at `(r, c)` is the
`(r*m+c)`-th edge pushed by `buildEdges`. -/
def horizEdgeIndex (g : Grid) (r c : Nat) : Nat := r * g.m + c

/-- `vertEdgeIndex[r*(m+1)+c]`: vertical edges are pushed after the
`(n+1)*m` horizontal ones, in row-major order. -/
def vertEdgeIndex (g : Grid) (r c : Nat) : Nat :=
  (g.n + 1) * g.m + r * (g.m + 1) + c

/-- Append `x` to the `i`-th bucket of a table of lists
(the `push_back` into `cellEdges[...]` / `pointEdges[...]`). -/
def pushAt (t : List (List Nat)) (i : Nat) (x : Nat) : List (List Nat) :=
  t.set i (t.getD i [] ++ [x])

/-- Push into the bucket of a cell id that may be the `-1` sentinel
(mirrors `if (e.cellA >= 0) cellEdges[e.cellA].push_back(idx)`). -/
def pushCell (t : List (List Nat)) (ci : Int) (x : Nat) : List (List Nat) :=
  if 0 ≤ ci then pushAt t ci.toNat x else t

/-- The two incidence tables of `buildEdges`.  The source fills them
inside the edge-building loops; the embedding replays the same pushes
in the same edge-index order over the already materialised edge list. -/
structure Tables where
  cellEdges : List (List Nat)
  pointEdges : List (List Nat)
deriving DecidableEq, Repr

/-- One push round of the table build: edge `i` is recorded with its
(up to) two adjacent cells and its two endpoints, in the push order of
the source (`cellA`, `cellB`; `u`, `v`). -/
def tableStep (g : Grid) (t : Tables) (i : Nat) : Tables :=
  let e := edgeAt g i
  { cellEdges := pushCell (pushCell t.cellEdges e.cellA i) e.cellB i
    pointEdges := pushAt (pushAt t.pointEdges e.u i) e.v i }

/-- The tables after recording the first `k` edges. -/
def partialTables (g : Grid) (k : Nat) : Tables :=
  (List.range k).foldl (tableStep g)
    { cellEdges := List.replicate (numCells g) []
      pointEdges := List.replicate (numPoints g) [] }

def buildTables (g : Grid) : Tables := partialTables g (numEdges g)

/-- `clueCells`: the ids of the clued cells in increasing order
(the final loop of `buildEdges`). -/
def clueCells (g : Grid) : List Nat :=
  (List.range (numCells g)).filter (fun i => 0 ≤ clueAt g i)

/-- Search state (mirrors `struct State`): per-edge ternary decision
(0 undecided, 1 ON, -1 OFF) and the four counter arrays. -/
structure State where
  edgeState : List Int
  pointDegree : List Int
  pointUndecided : List Int
  cellEdgeCount : List Int
  cellUndecided : List Int
deriving DecidableEq, Repr

/-- `initialState`: all edges undecided, degrees and ON counts zero,
undecided counters set to the incidence-list sizes. -/
def initialState (g : Grid) : State :=
  let t := buildTables g
  { edgeState := List.replicate (numEdges g) 0
    pointDegree := List.replicate (numPoints g) 0
    pointUndecided :=
      (List.range (numPoints g)).map (fun i => ((t.pointEdges.getD i []).length : Int))
    cellEdgeCount := List.replicate g.clues.length 0
    cellUndecided :=
      (List.range (numCells g)).map (fun i => ((t.cellEdges.getD i []).length : Int)) }

/-- Decrement the `i`-th entry of an `Int` array (`arr[i]--`). -/
def decAt (l : List Int) (i : Nat) : List Int := l.set i (l.getD i 0 - 1)

/-- Increment the `i`-th entry of an `Int` array (`++arr[i]`). -/
def incAt (l : List Int) (i : Nat) : List Int := l.set i (l.getD i 0 + 1)

/-- Decrement the bucket of a cell id that may be `-1`
(mirrors `if (e.cellA >= 0) s.cellUndecided[e.cellA]--`). -/
def decCell (l : List Int) (ci : Int) : List Int :=
  if 0 ≤ ci then decAt l ci.toNat else l

/-- Increment the bucket of a cell id that may be `-1`; the combined
effect of the success path of `applyDecision` on `cellEdgeCount`. -/
def incCell (l : List Int) (ci : Int) : List Int :=
  if 0 ≤ ci then incAt l ci.toNat else l

/-- `applyDecision(s, edgeIdx, val)` of the source, returning the
success flag together with the (possibly partially) mutated state.
The mutation order and the early-return points are exactly those of
the C++ code: decision written, undecided counters decremented, then
for ON: endpoint degrees incremented and checked, then cellA count
incremented and checked, then cellB count incremented and checked. -/
def applyDecision (g : Grid) (s : State) (edgeIdx : Nat) (val : Int) :
    Bool × State :=
  if s.edgeState.getD edgeIdx 0 = val then (true, s)
  else if s.edgeState.getD edgeIdx 0 ≠ 0 then (false, s)
  else
    let e := edgeAt g edgeIdx
    let s1 : State :=
      { edgeState := s.edgeState.set edgeIdx val
        pointDegree := s.pointDegree
        pointUndecided := decAt (decAt s.pointUndecided e.u) e.v
        cellEdgeCount := s.cellEdgeCount
        cellUndecided := decCell (decCell s.cellUndecided e.cellA) e.cellB }
    if val = 1 then
      let pd1 := incAt s1.pointDegree e.u
      let du := pd1.getD e.u 0
      let pd2 := incAt pd1 e.v
      let dv := pd2.getD e.v 0
      let s2 : State := { s1 with pointDegree := pd2 }
      if 2 < du ∨ 2 < dv then (false, s2)
      else
        let s3 : State :=
          if 0 ≤ e.cellA then
            { s2 with cellEdgeCount := incAt s2.cellEdgeCount e.cellA.toNat }
          else s2
        if 0 ≤ e.cellA ∧ 0 ≤ clueAt g e.cellA.toNat ∧
            clueAt g e.cellA.toNat < s3.cellEdgeCount.getD e.cellA.toNat 0 then
          (false, s3)
        else
          let s4 : State :=
            if 0 ≤ e.cellB then
              { s3 with cellEdgeCount := incAt s3.cellEdgeCount e.cellB.toNat }
            else s3
          if 0 ≤ e.cellB ∧ 0 ≤ clueAt g e.cellB.toNat ∧
              clueAt g e.cellB.toNat < s4.cellEdgeCount.getD e.cellB.toNat 0 then
            (false, s4)
          else (true, s4)
    else (true, s1)

/-- The inlined OFF-forcing of the propagator (both the cell rule and
the vertex rule set `edgeState[eidx] = -1` and decrement the four
undecided counters by hand); only ever called on undecided edges. -/
def forceOff (g : Grid) (s : State) (eidx : Nat) : State :=
  let e := edgeAt g eidx
  { s with
    edgeState := s.edgeState.set eidx (-1)
    pointUndecided := decAt (decAt s.pointUndecided e.u) e.v
    cellUndecided := decCell (decCell s.cellUndecided e.cellA) e.cellB }

/-- `quickValidityCheck` (the sequential, non-TBB path). -/
def quickValidityCheck (g : Grid) (s : State) : Bool :=
  ((List.range (numPoints g)).all (fun i =>
      !(2 < s.pointDegree.getD i 0) &&
      !(s.pointDegree.getD i 0 = 1 ∧ s.pointUndecided.getD i 0 = 0))) &&
  ((clueCells g).all (fun cell =>
      !(clueAt g cell < s.cellEdgeCount.getD cell 0) &&
      !(s.cellEdgeCount.getD cell 0 + s.cellUndecided.getD cell 0 < clueAt g cell)))

/-- `isDefinitelyUnsolvable`. -/
def isDefinitelyUnsolvable (g : Grid) (s : State) : Bool :=
  ((List.range (numPoints g)).any (fun i =>
      (s.pointDegree.getD i 0 = 1 ∧ s.pointUndecided.getD i 0 = 0) ||
      (0 < s.pointDegree.getD i 0 ∧
        s.pointDegree.getD i 0 + s.pointUndecided.getD i 0 < 2) ||
      (2 < s.pointDegree.getD i 0))) ||
  ((clueCells g).any (fun cell =>
      (clueAt g cell < s.cellEdgeCount.getD cell 0) ||
      (s.cellEdgeCount.getD cell 0 + s.cellUndecided.getD cell 0 < clueAt g cell)))

/-- Worklist state of the propagator: the mutable search state plus the
two FIFO queues with their is-queued bitmaps.  The source keeps
processed prefixes inside the queue vectors (`cellPos` / `pointPos`);
the embedding pops processed elements from the front instead, which
yields the identical processing order. -/
structure PropState where
  s : State
  cellQueue : List Nat
  pointQueue : List Nat
  cellQueued : List Bool
  pointQueued : List Bool
deriving DecidableEq, Repr

/-- Enqueue an adjacent cell from an ON-forcing site: requires a real
cell (`>= 0`), not already queued, and clued (mirrors the
`e.cellA >= 0 && !cellQueued[e.cellA] && grid.clues[e.cellA] >= 0`
guards). -/
def enqueueCell (g : Grid) (ps : PropState) (ci : Int) : PropState :=
  if 0 ≤ ci ∧ ¬(ps.cellQueued.getD ci.toNat false) ∧ 0 ≤ clueAt g ci.toNat then
    { ps with
      cellQueue := ps.cellQueue ++ [ci.toNat]
      cellQueued := ps.cellQueued.set ci.toNat true }
  else ps

/-- Enqueue a point if not already queued. -/
def enqueuePoint (ps : PropState) (p : Nat) : PropState :=
  if ¬(ps.pointQueued.getD p false) then
    { ps with
      pointQueue := ps.pointQueue ++ [p]
      pointQueued := ps.pointQueued.set p true }
  else ps

/-- The cell rule's ON branch: force every still-undecided edge of the
cell ON via `applyDecision`, enqueueing both adjacent clued cells and
both endpoints of each forced edge; any `applyDecision` failure aborts
the whole propagation. -/
def cellOnPass (g : Grid) : List Nat → PropState → Option PropState
  | [], ps => some ps
  | eidx :: rest, ps =>
    if ps.s.edgeState.getD eidx 0 = 0 then
      let r := applyDecision g ps.s eidx 1
      if r.1 then
        let e := edgeAt g eidx
        let ps := { ps with s := r.2 }
        let ps := enqueueCell g ps e.cellA
        let ps := enqueueCell g ps e.cellB
        let ps := enqueuePoint ps e.u
        let ps := enqueuePoint ps e.v
        cellOnPass g rest ps
      else none
    else cellOnPass g rest ps

/-- The cell rule's OFF branch: force every still-undecided edge of the
cell OFF by the inlined update, enqueueing both endpoints (the source
does not enqueue the adjacent cells here). -/
def cellOffPass (g : Grid) : List Nat → PropState → PropState
  | [], ps => ps
  | eidx :: rest, ps =>
    if ps.s.edgeState.getD eidx 0 = 0 then
      let e := edgeAt g eidx
      let ps := { ps with s := forceOff g ps.s eidx }
      let ps := enqueuePoint ps e.u
      let ps := enqueuePoint ps e.v
      cellOffPass g rest ps
    else cellOffPass g rest ps

/-- The vertex rule's ON branch (`deg == 1 && undecided == 1`): force
the remaining undecided incident edge ON, enqueueing both adjacent
clued cells and the other endpoint. -/
def pointOnPass (g : Grid) (ptIdx : Nat) : List Nat → PropState → Option PropState
  | [], ps => some ps
  | eidx :: rest, ps =>
    if ps.s.edgeState.getD eidx 0 = 0 then
      let r := applyDecision g ps.s eidx 1
      if r.1 then
        let e := edgeAt g eidx
        let ps := { ps with s := r.2 }
        let ps := enqueueCell g ps e.cellA
        let ps := enqueueCell g ps e.cellB
        let otherPt := if e.u = ptIdx then e.v else e.u
        let ps := enqueuePoint ps otherPt
        pointOnPass g ptIdx rest ps
      else none
    else pointOnPass g ptIdx rest ps

/-- The vertex rule's OFF branch (`deg == 2 && undecided > 0` in the
source; note this branch is unreachable there, see
`claim2_code_bug`): force undecided incident edges OFF, enqueueing the
other endpoint. -/
def pointOffPass (g : Grid) (ptIdx : Nat) : List Nat → PropState → PropState
  | [], ps => ps
  | eidx :: rest, ps =>
    if ps.s.edgeState.getD eidx 0 = 0 then
      let e := edgeAt g eidx
      let ps := { ps with s := forceOff g ps.s eidx }
      let otherPt := if e.u = ptIdx then e.v else e.u
      let ps := enqueuePoint ps otherPt
      pointOffPass g ptIdx rest ps
    else pointOffPass g ptIdx rest ps

/-- Process one dequeued cell (the body of the inner cell loop). -/
def processCell (g : Grid) (t : Tables) (cellIdx : Nat) (ps : PropState) :
    Option PropState :=
  let ps := { ps with cellQueued := ps.cellQueued.set cellIdx false }
  let clue := clueAt g cellIdx
  if clue < 0 then some ps
  else
    let onCount := ps.s.cellEdgeCount.getD cellIdx 0
    let undecided := ps.s.cellUndecided.getD cellIdx 0
    if onCount + undecided = clue then
      cellOnPass g (t.cellEdges.getD cellIdx []) ps
    else if onCount = clue ∧ 0 < undecided then
      some (cellOffPass g (t.cellEdges.getD cellIdx []) ps)
    else some ps

/-- Process one dequeued point (the body of the inner point loop).
The `deg >= 2` guard makes the `deg == 2` OFF branch unreachable,
exactly as in the source. -/
def processPoint (g : Grid) (t : Tables) (ptIdx : Nat) (ps : PropState) :
    Option PropState :=
  let ps := { ps with pointQueued := ps.pointQueued.set ptIdx false }
  let deg := ps.s.pointDegree.getD ptIdx 0
  let undecided := ps.s.pointUndecided.getD ptIdx 0
  if 2 ≤ deg ∨ (deg = 0 ∧ undecided = 0) then some ps
  else if deg = 1 ∧ undecided = 1 then
    pointOnPass g ptIdx (t.pointEdges.getD ptIdx []) ps
  else if deg = 2 ∧ 0 < undecided then
    some (pointOffPass g ptIdx (t.pointEdges.getD ptIdx []) ps)
  else some ps

/-- The alternating drain of the two worklists: the outer loop of
`propagateConstraints`.  `cellsMode` tells which inner loop is running;
the cell loop drains the cell queue completely (including cells it
enqueues itself), then the point loop drains the point queue
completely, and the outer loop repeats until both are empty.  Fuel
exhaustion is reported as failure; it never fires with the fuel used
below. -/
def propLoop (g : Grid) (t : Tables) : Nat → Bool → PropState → Option State
  | 0, _, _ => none
  | fuel + 1, true, ps =>
    match ps.cellQueue with
    | [] => propLoop g t fuel false ps
    | cellIdx :: rest =>
      match processCell g t cellIdx { ps with cellQueue := rest } with
      | none => none
      | some ps => propLoop g t fuel true ps
  | fuel + 1, false, ps =>
    match ps.pointQueue with
    | [] =>
      if ps.cellQueue.isEmpty then some ps.s
      else propLoop g t fuel true ps
    | ptIdx :: rest =>
      match processPoint g t ptIdx { ps with pointQueue := rest } with
      | none => none
      | some ps => propLoop g t fuel false ps

/-- `propagateConstraints`: the up-front per-cell contradiction check,
then the worklists initialised with every clued cell and every point,
then the alternating drain. -/
def propagateConstraints (g : Grid) (fuel : Nat) (s : State) : Option State :=
  if (clueCells g).any (fun cell =>
      (clueAt g cell < s.cellEdgeCount.getD cell 0) ||
      (s.cellEdgeCount.getD cell 0 + s.cellUndecided.getD cell 0 < clueAt g cell))
  then none
  else
    let t := buildTables g
    let ps0 : PropState :=
      { s := s
        cellQueue := clueCells g
        pointQueue := List.range (numPoints g)
        cellQueued := (clueCells g).foldl (fun l c => l.set c true)
          (List.replicate g.clues.length false)
        pointQueued := List.replicate (numPoints g) true }
    propLoop g t fuel true ps0

/-- `estimateBranches`: 1 when the local vertex counters force the edge
(ON via a degree-1 endpoint with one undecided edge, OFF via a
degree-≥2 endpoint), otherwise 2. -/
def estimateBranches (g : Grid) (s : State) (edgeIdx : Nat) : Int :=
  let e := edgeAt g edgeIdx
  let degU := s.pointDegree.getD e.u 0
  let degV := s.pointDegree.getD e.v 0
  let undU := s.pointUndecided.getD e.u 0
  let undV := s.pointUndecided.getD e.v 0
  if (degU = 1 ∧ undU = 1) ∨ (degV = 1 ∧ undV = 1) then 1
  else if 2 ≤ degU ∨ 2 ≤ degV then 1
  else 2

/-- The `scoreCell` lambda of `selectNextEdge`. -/
def scoreCell (g : Grid) (s : State) (cellIdx : Int) : Int :=
  if cellIdx < 0 then 0
  else if clueAt g cellIdx.toNat < 0 then 0
  else
    let clue := clueAt g cellIdx.toNat
    let cnt := s.cellEdgeCount.getD cellIdx.toNat 0
    let und := s.cellUndecided.getD cellIdx.toNat 0
    if und = 0 then 0
    else
      let need := clue - cnt
      if need = und ∨ need = 0 then 2000
      else if und = 1 then 1500
      else if und ≤ 2 then 1000
      else max 0 (100 - |need * 2 - und|)

/-- The scan loop of `selectNextEdge` over the edge indices, carrying
`(bestEdge, minBranches, bestScore)` and returning immediately on a
branching-factor-1 edge. -/
def selectNextEdgeAux (g : Grid) (s : State) :
    List Nat → Int → Int → Int → Int
  | [], bestEdge, _, _ => bestEdge
  | i :: rest, bestEdge, minBranches, bestScore =>
    if s.edgeState.getD i 0 ≠ 0 then
      selectNextEdgeAux g s rest bestEdge minBranches bestScore
    else
      let branches := estimateBranches g s i
      if branches = 1 then (i : Int)
      else
        let e := edgeAt g i
        let degU := s.pointDegree.getD e.u 0
        let degV := s.pointDegree.getD e.v 0
        let undU := s.pointUndecided.getD e.u 0
        let undV := s.pointUndecided.getD e.v 0
        let score :=
          (if degU = 1 ∨ degV = 1 then (10000 : Int) else 0) +
          (if (degU = 0 ∧ undU = 2) ∨ (degV = 0 ∧ undV = 2) then (5000 : Int) else 0) +
          scoreCell g s e.cellA + scoreCell g s e.cellB
        if branches < minBranches ∨ (branches = minBranches ∧ bestScore < score) then
          selectNextEdgeAux g s rest (i : Int) branches score
        else
          selectNextEdgeAux g s rest bestEdge minBranches bestScore

/-- `selectNextEdge`: best undecided edge by the two-phase scoring, or
`numEdges` when no undecided edge remains. -/
def selectNextEdge (g : Grid) (s : State) : Nat :=
  let r := selectNextEdgeAux g s (List.range (numEdges g)) (-1) 3 (-1000)
  if 0 ≤ r then r.toNat else numEdges g

/-- A reported solution: the final edge assignment and the ordered
cycle of lattice coordinates (mirrors `struct Solution`). -/
structure Solution where
  edgeState : List Int
  cyclePoints : List (Nat × Nat)
deriving DecidableEq, Repr

/-- One round of the ON-edge adjacency build of the validator: an ON
edge pushes `v` into `adj[u]` and `u` into `adj[v]`, and the first ON
edge's `u` is recorded as `start` (`-1` while no ON edge was seen). -/
def adjStep (g : Grid) (s : State) (acc : List (List Nat) × Int) (i : Nat) :
    List (List Nat) × Int :=
  if s.edgeState.getD i 0 = 1 then
    let e := edgeAt g i
    (pushAt (pushAt acc.1 e.u e.v) e.v e.u,
     if acc.2 = -1 then (e.u : Int) else acc.2)
  else acc

/-- The adjacency listing after scanning the first `k` edges. -/
def partialAdj (g : Grid) (s : State) (k : Nat) : List (List Nat) × Int :=
  (List.range k).foldl (adjStep g s) (List.replicate (numPoints g) [], -1)

def buildAdj (g : Grid) (s : State) : List (List Nat) × Int :=
  partialAdj g s (numEdges g)

/-- One DFS pop of the validator's connectivity check: scan the popped
vertex's adjacency, counting every entry and pushing unvisited
neighbours (marking them visited at push time, as the source marks via
`vis[to] = 1` before `st.push(to)`).  The stack is a LIFO list with
its head as `st.top()`. -/
def dfsScan : List Nat → List Nat → List Bool → Nat →
    List Nat × List Bool × Nat
  | [], stack, vis, cnt => (stack, vis, cnt)
  | w :: rest, stack, vis, cnt =>
    if vis.getD w false then dfsScan rest stack vis (cnt + 1)
    else dfsScan rest (w :: stack) (vis.set w true) (cnt + 1)

/-- The DFS loop (`while (!st.empty())`), with fuel. -/
def dfsLoop (adj : List (List Nat)) : Nat → List Nat → List Bool → Nat →
    List Bool × Nat
  | 0, _, vis, cnt => (vis, cnt)
  | _ + 1, [], vis, cnt => (vis, cnt)
  | fuel + 1, v :: stack, vis, cnt =>
    let r := dfsScan (adj.getD v []) stack vis cnt
    dfsLoop adj fuel r.1 r.2.1 r.2.2

/-- Point id to `(row, col)` lattice coordinates (the `coord` lambda). -/
def coordOf (g : Grid) (id : Nat) : Nat × Nat :=
  (id / (g.m + 1), id % (g.m + 1))

/-- The cycle walk (`do { ... } while (cur != start)`): push the
current vertex, step to the neighbour that is not the previous vertex,
stop when back at `start` and close the list with `start`.  A vertex
with fewer than two adjacency entries or exhausted fuel aborts; neither
occurs on states the validator accepts. -/
def walkLoop (g : Grid) (adj : List (List Nat)) (start : Nat) :
    Nat → Nat → Int → List Nat → Option (List Nat)
  | 0, _, _, _ => none
  | fuel + 1, cur, prev, acc =>
    match adj.getD cur [] with
    | a :: b :: _ =>
      let acc := acc ++ [cur]
      let next := if (a : Int) ≠ prev then a else b
      if next = start then some (acc ++ [start])
      else walkLoop g adj start fuel next (cur : Int) acc
    | _ => none

/-- Steps 1–8 of the final validator (`finalCheckAndStore` before the
symmetry filter): exact clue check, ON adjacency build, degree-0-or-2
check, non-emptiness, DFS connectivity over the ON subgraph, and the
cycle walk; `none` is a rejection. -/
def validate (g : Grid) (s : State) : Option Solution :=
  if !((clueCells g).all (fun cell =>
      s.cellEdgeCount.getD cell 0 = clueAt g cell)) then none
  else
    let adjStart := buildAdj g s
    let adj := adjStart.1
    let start := adjStart.2
    if start = -1 then none
    else if !((List.range (numPoints g)).all (fun v =>
        (adj.getD v []).length = 0 ∨ (adj.getD v []).length = 2)) then none
    else
      let onEdges := ((List.range (numPoints g)).foldl
        (fun acc v => acc + (adj.getD v []).length) 0) / 2
      if onEdges = 0 then none
      else
        let st := start.toNat
        let r := dfsLoop adj (numPoints g + 1) [st]
          ((List.replicate (numPoints g) false).set st true) 0
        let vis := r.1
        let visitedEdges := r.2
        if !((List.range (numPoints g)).all (fun v =>
            (adj.getD v []).length ≠ 2 ∨ vis.getD v false)) then none
        else if visitedEdges / 2 ≠ onEdges then none
        else
          match walkLoop g adj st (numEdges g + 2) st (-1) [] with
          | none => none
          | some ids => some { edgeState := s.edgeState
                               cyclePoints := ids.map (coordOf g) }

/-- Lexicographic comparison of two `Int` vectors
(`std::vector<char>::operator<`). -/
def listLt : List Int → List Int → Bool
  | [], [] => false
  | [], _ :: _ => true
  | _ :: _, [] => false
  | a :: as, b :: bs => if a < b then true else if b < a then false else listLt as bs

/-- Swap two entries of an `Int` vector (`std::swap`). -/
def swapAt (l : List Int) (i j : Nat) : List Int :=
  let a := l.getD i 0
  let b := l.getD j 0
  (l.set i b).set j a

/-- The horizontal-edge swap pairs of `isCanonicalSolution`:
`r` over `0..<n` (the source misses row `n`), `c` over `0..<m/2`. -/
def reflectSwaps (g : Grid) : List (Nat × Nat) :=
  (List.range g.n).flatMap (fun r =>
    (List.range (g.m / 2)).map (fun c =>
      (horizEdgeIndex g r c, horizEdgeIndex g r (g.m - 1 - c))))

/-- `isCanonicalSolution`: in find-all mode, reject a solution whose
partially reflected edge vector is lexicographically smaller; always
accept in find-first mode. -/
def isCanonicalSolution (g : Grid) (findAll : Bool) (sol : Solution) : Bool :=
  if !findAll then true
  else
    let reflected := (reflectSwaps g).foldl (fun l p => swapAt l p.1 p.2) sol.edgeState
    !(listLt reflected sol.edgeState)

/-- Accumulator of the sequential search: the recorded solutions (the
shared `solutions` vector) and the `stopAfterFirst` flag. -/
structure SearchAcc where
  solutions : List Solution
  stop : Bool
deriving DecidableEq, Repr

/-- `finalCheckAndStore`: validate, drop non-canonical solutions in
find-all mode, otherwise record and, in find-first mode, raise the
stop flag. -/
def finalCheckAndStore (g : Grid) (findAll : Bool) (s : State)
    (acc : SearchAcc) : SearchAcc :=
  match validate g s with
  | none => acc
  | some sol =>
    if !(isCanonicalSolution g findAll sol) then acc
    else { solutions := acc.solutions ++ [sol]
           stop := if findAll then acc.stop else true }

/-- One search node (`Solver::search`), sequential semantics: the
parallel path of the source only reorders the exploration of the two
children; the embedding always runs the OFF child first and the ON
child second, exactly like the sequential branch of the source. -/
def searchGo (g : Grid) (findAll : Bool) (pfuel : Nat) :
    Nat → State → SearchAcc → SearchAcc
  | 0, _, acc => acc
  | fuel + 1, s, acc =>
    if !findAll ∧ acc.stop then acc
    else if isDefinitelyUnsolvable g s then acc
    else if !(quickValidityCheck g s) then acc
    else
      match propagateConstraints g pfuel s with
      | none => acc
      | some s =>
        let edgeIdx := selectNextEdge g s
        if edgeIdx = numEdges g then finalCheckAndStore g findAll s acc
        else
          let e := edgeAt g edgeIdx
          let degU := s.pointDegree.getD e.u 0
          let degV := s.pointDegree.getD e.v 0
          let undU := s.pointUndecided.getD e.u 0
          let undV := s.pointUndecided.getD e.v 0
          let canOff0 := !((degU = 1 ∧ undU = 1) ∨ (degV = 1 ∧ undV = 1))
          let canOn0 := !(2 ≤ degU ∨ 2 ≤ degV)
          let offChild : Option State :=
            if canOff0 then
              let r := applyDecision g s edgeIdx (-1)
              if r.1 ∧ quickValidityCheck g r.2 then
                propagateConstraints g pfuel r.2
              else none
            else none
          let onChild : Option State :=
            if canOn0 then
              let r := applyDecision g s edgeIdx 1
              if r.1 ∧ quickValidityCheck g r.2 then
                propagateConstraints g pfuel r.2
              else none
            else none
          match offChild, onChild with
          | none, none => acc
          | none, some onS => searchGo g findAll pfuel fuel onS acc
          | some offS, none => searchGo g findAll pfuel fuel offS acc
          | some offS, some onS =>
            let acc := searchGo g findAll pfuel fuel offS acc
            if !findAll ∧ acc.stop then acc
            else searchGo g findAll pfuel fuel onS acc

/-- `Solver::run` restricted to the core: build the graph, start from
the initial state, return the recorded solutions in order. -/
def solverRun (g : Grid) (findAll : Bool) (fuel pfuel : Nat) : List Solution :=
  (searchGo g findAll pfuel fuel (initialState g) { solutions := [], stop := false }).solutions

/-! ### Mathematical layer

Counts recomputed directly from the `edgeState` array (independent of
the incremental counters), the ON-subgraph adjacency relation, and the
validity conditions (a)–(c) of the specification. -/

/-- Number of ON edges around cell `c`, recomputed from `edgeState`. -/
def onCountOf (g : Grid) (es : List Int) (c : Nat) : Nat :=
  (List.range (numEdges g)).countP (fun i =>
    decide ((((edgeAt g i).cellA = (c : Int)) ∨ ((edgeAt g i).cellB = (c : Int))) ∧
      es.getD i 0 = 1))

/-- Number of undecided edges around cell `c`, recomputed from
`edgeState`. -/
def undCountOf (g : Grid) (es : List Int) (c : Nat) : Nat :=
  (List.range (numEdges g)).countP (fun i =>
    decide ((((edgeAt g i).cellA = (c : Int)) ∨ ((edgeAt g i).cellB = (c : Int))) ∧
      es.getD i 0 = 0))

/-- ON-degree of point `p`, recomputed from `edgeState`. -/
def onDegOf (g : Grid) (es : List Int) (p : Nat) : Nat :=
  (List.range (numEdges g)).countP (fun i =>
    decide ((((edgeAt g i).u = p) ∨ ((edgeAt g i).v = p)) ∧ es.getD i 0 = 1))

/-- Number of undecided edges at point `p`, recomputed from
`edgeState`. -/
def undDegOf (g : Grid) (es : List Int) (p : Nat) : Nat :=
  (List.range (numEdges g)).countP (fun i =>
    decide ((((edgeAt g i).u = p) ∨ ((edgeAt g i).v = p)) ∧ es.getD i 0 = 0))

/-- Two lattice points joined by an ON edge of the assignment. -/
def OnAdjRel (g : Grid) (es : List Int) (p q : Nat) : Prop :=
  ∃ i, i < numEdges g ∧ es.getD i 0 = 1 ∧
    (((edgeAt g i).u = p ∧ (edgeAt g i).v = q) ∨
     ((edgeAt g i).u = q ∧ (edgeAt g i).v = p))

/-- Connectivity in the ON-edge subgraph. -/
def OnReach (g : Grid) (es : List Int) : Nat → Nat → Prop :=
  Relation.ReflTransGen (OnAdjRel g es)

/-- Conditions (a)–(c) of the specification on a complete edge
assignment: every clued cell has exactly its clue of ON edges, every
point has ON-degree 0 or 2, the ON set is non-empty, and all
ON-degree-2 points lie in one connected component (together with the
degree condition this says the ON edges form exactly one simple
cycle). -/
def ValidAssignment (g : Grid) (es : List Int) : Prop :=
  (∀ c, c < numCells g → 0 ≤ clueAt g c → ((onCountOf g es c : Int) = clueAt g c)) ∧
  (∀ p, p < numPoints g → onDegOf g es p = 0 ∨ onDegOf g es p = 2) ∧
  (∃ i, i < numEdges g ∧ es.getD i 0 = 1) ∧
  (∀ p q, p < numPoints g → q < numPoints g →
    onDegOf g es p = 2 → onDegOf g es q = 2 → OnReach g es p q)

/-- Validity of a reported solution: the edge assignment satisfies
(a)–(c) and the extracted cycle-point list is the coordinate image of a
non-empty vertex sequence that starts and ends at the same vertex and
whose consecutive vertices are joined by ON edges. -/
def ValidSolution (g : Grid) (sol : Solution) : Prop :=
  ValidAssignment g sol.edgeState ∧
  ∃ ids : List Nat, ids ≠ [] ∧ sol.cyclePoints = ids.map (coordOf g) ∧
    ids.head? = ids.getLast? ∧ List.Chain' (OnAdjRel g sol.edgeState) ids

/-- The grid shape guaranteed by the external reader: the clue array
covers exactly the `rows·cols` cells. -/
def GridWF (g : Grid) : Prop := g.clues.length = numCells g

/-- The five state arrays have the sizes the graph dictates. -/
def SizedState (g : Grid) (s : State) : Prop :=
  s.edgeState.length = numEdges g ∧
  s.pointDegree.length = numPoints g ∧
  s.pointUndecided.length = numPoints g ∧
  s.cellEdgeCount.length = g.clues.length ∧
  s.cellUndecided.length = numCells g

/-- Well-formedness of an edge record: endpoints are distinct points of
the lattice, adjacent cells are either the `-1` sentinel or distinct
cell ids. -/
def EdgeWF (g : Grid) (e : Edge) : Prop :=
  e.u < numPoints g ∧ e.v < numPoints g ∧ e.u ≠ e.v ∧
  (e.cellA = -1 ∨ (0 ≤ e.cellA ∧ e.cellA.toNat < numCells g)) ∧
  (e.cellB = -1 ∨ (0 ≤ e.cellB ∧ e.cellB.toNat < numCells g)) ∧
  (0 ≤ e.cellA → 0 ≤ e.cellB → e.cellA ≠ e.cellB)

/-- Agreement of the five state arrays with the counts recomputed from
`edgeState` (invariants 4–7 of §3 of the specification), together with
the array lengths. -/
def CounterOk (g : Grid) (s : State) : Prop :=
  SizedState g s ∧
  (∀ p, p < numPoints g → s.pointDegree.getD p 0 = (onDegOf g s.edgeState p : Int)) ∧
  (∀ p, p < numPoints g → s.pointUndecided.getD p 0 = (undDegOf g s.edgeState p : Int)) ∧
  (∀ c, c < numCells g → s.cellEdgeCount.getD c 0 = (onCountOf g s.edgeState c : Int)) ∧
  (∀ c, c < numCells g → s.cellUndecided.getD c 0 = (undCountOf g s.edgeState c : Int))

/-! ### Concrete grids used by the claims -/

/-- The 1×1 clueless grid (end-to-end scenario 2 of §8). -/
def g11 : Grid := ⟨1, 1, [-1]⟩

/-- The 1×2 clueless grid. -/
def g12 : Grid := ⟨1, 2, [-1, -1]⟩

/-- The edge assignment of the loop around the left cell of `g12`
(edges: top left, bottom left, left, middle vertical). -/
def leftLoopEs : List Int := [1, -1, 1, -1, 1, 1, -1]

/-- The 1×2 grid with clues 3 and 0. -/
def g12c : Grid := ⟨1, 2, [3, 0]⟩

/-- The 2×2 grid with clues 3, 0, 0 and an unclued cell. -/
def g22c : Grid := ⟨2, 2, [3, 0, 0, -1]⟩

/-- The 3×3 grid whose only clues are a 0 at the centre and 3 on the
centre's four edge-adjacent neighbours. -/
def g33iso : Grid := ⟨3, 3, [-1, 3, -1, 3, 0, 3, -1, 3, -1]⟩

/-- A 3×3 grid containing the same centre pattern (cell 4 has clue 0,
its neighbours 1, 3, 5, 7 all have clue 3) plus one more clue 0 at
cell 0. -/
def g33bad : Grid := ⟨3, 3, [0, 3, -1, 3, 0, 3, -1, 3, -1]⟩

/-- 1×2 grid, right cell clued 2 (used for the `applyDecision`
counterexample). -/
def g7 : Grid := ⟨1, 2, [-1, 2]⟩

/-- A state of `g7` with the top-left and the middle edges ON, reached
by two successful `applyDecision` calls. -/
def s7 : State := (applyDecision g7 (applyDecision g7 (initialState g7) 0 1).2 5 1).2

/-- 1×2 grid, left cell clued 1 (used for the return-value
counterexample of `applyDecision`). -/
def g7b : Grid := ⟨1, 2, [1, -1]⟩

/-- A state of `g7b` in which a failed `applyDecision` has pushed the
left cell's ON count to 2, one past its clue. -/
def s7b : State := (applyDecision g7b (applyDecision g7b (initialState g7b) 0 1).2 2 1).2

/-- 2×1 grid, top cell clued 3 (used for the failure-path
counterexample of `applyDecision`). -/
def g9 : Grid := ⟨2, 1, [3, -1]⟩

/-- A state of `g9` with the middle horizontal edge and the upper-left
vertical edge ON, giving their shared endpoint degree 2. -/
def s9 : State := (applyDecision g9 (applyDecision g9 (initialState g9) 1 1).2 3 1).2

/-- The fully decided state of the 1×1 clueless grid with all four
edges ON. -/
def s11 : State :=
  { edgeState := [1, 1, 1, 1]
    pointDegree := [2, 2, 2, 2]
    pointUndecided := [0, 0, 0, 0]
    cellEdgeCount := [4]
    cellUndecided := [0] }

/-- The solution extracted from `s11`. -/
def sol11 : Solution :=
  { edgeState := [1, 1, 1, 1]
    cyclePoints := [(0, 0), (0, 1), (1, 1), (1, 0), (0, 0)] }

/-! ### Helper lemmas -/

theorem getD_set_self {α : Type} (l : List α) (i : Nat) (x d : α)
    (h : i < l.length) : (l.set i x).getD i d = x := by
  simp [List.getD_eq_getElem?_getD, List.getElem?_set_self', h]

theorem getD_set_ne {α : Type} (l : List α) (i j : Nat) (x d : α)
    (h : i ≠ j) : (l.set i x).getD j d = l.getD j d := by
  simp [List.getD_eq_getElem?_getD, List.getElem?_set_ne h]

/-- Exchanging the value of a boolean-valued scan at a single index
`e < E` changes a `countP` over `range E` by the difference of the two
indicator values. -/
theorem countP_range_switch (E e : Nat) (he : e < E) (f f' : Nat → Bool)
    (h : ∀ i, i ≠ e → f i = f' i) :
    (List.range E).countP f' + (if f e then 1 else 0)
      = (List.range E).countP f + (if f' e then 1 else 0) := by
  induction E with
  | zero => omega
  | succ n ih =>
    rw [List.range_succ, List.countP_append, List.countP_append]
    rcases Nat.lt_or_ge e n with hlt | hge
    · have hgoal := ih hlt
      have hfn : f n = f' n := h n (by omega)
      simp only [List.countP_cons, List.countP_nil, hfn]
      cases hb : f' n <;> simp [hb] <;> omega
    · have heq : e = n := by omega
      subst heq
      have hsame : (List.range e).countP f = (List.range e).countP f' := by
        apply List.countP_congr
        intro a ha
        have : a < e := List.mem_range.mp ha
        rw [h a (by omega)]
      simp only [List.countP_cons, List.countP_nil]
      rw [hsame]
      cases hf : f e <;> cases hf' : f' e <;> simp [hf, hf']

theorem hEdge_wf (g : Grid) (r c : Nat) (hr : r < g.n + 1) (hc : c < g.m) :
    EdgeWF g (hEdge g r c) := by
  have hm : 0 < g.m := by omega
  have hub : ∀ x, x ≤ g.m → r * (g.m + 1) + x < numPoints g := by
    intro x hx
    calc r * (g.m + 1) + x < r * (g.m + 1) + (g.m + 1) := by omega
      _ = (r + 1) * (g.m + 1) := by ring
      _ ≤ (g.n + 1) * (g.m + 1) := Nat.mul_le_mul_right _ (by omega)
  have hcell : ∀ y, y < g.n → y * g.m + c < numCells g := by
    intro y hy
    calc y * g.m + c < y * g.m + g.m := by omega
      _ = (y + 1) * g.m := by ring
      _ ≤ g.n * g.m := Nat.mul_le_mul_right _ (by omega)
  refine ⟨hub c (by omega), ?_, by simp [hEdge, pointId], ?_, ?_, ?_⟩
  · exact hub (c + 1) (by omega)
  · simp only [hEdge]
    split
    · right
      refine ⟨Int.natCast_nonneg _, ?_⟩
      rw [Int.toNat_natCast]
      exact hcell _ (by omega)
    · left; rfl
  · simp only [hEdge]
    split
    · right
      refine ⟨Int.natCast_nonneg _, ?_⟩
      rw [Int.toNat_natCast]
      exact hcell _ (by omega)
    · left; rfl
  · simp only [hEdge]
    split
    · split
      · intro _ _
        have h1 : (r - 1) * g.m + c < r * g.m + c := by
          have : (r - 1) * g.m < r * g.m :=
            (Nat.mul_lt_mul_right hm).mpr (by omega)
          omega
        intro hcontra
        rw [Grid.cellIndex, Grid.cellIndex] at hcontra
        have := Nat.cast_injective (R := Int) hcontra
        omega
      · intro _ hb
        simp at hb
    · intro ha
      simp at ha

theorem vEdge_wf (g : Grid) (r c : Nat) (hr : r < g.n) (hc : c < g.m + 1) :
    EdgeWF g (vEdge g r c) := by
  have hub : ∀ y, y ≤ g.n → y * (g.m + 1) + c < numPoints g := by
    intro y hy
    calc y * (g.m + 1) + c < y * (g.m + 1) + (g.m + 1) := by omega
      _ = (y + 1) * (g.m + 1) := by ring
      _ ≤ (g.n + 1) * (g.m + 1) := Nat.mul_le_mul_right _ (by omega)
  have hcell : ∀ x, x < g.m → r * g.m + x < numCells g := by
    intro x hx
    calc r * g.m + x < r * g.m + g.m := by omega
      _ = (r + 1) * g.m := by ring
      _ ≤ g.n * g.m := Nat.mul_le_mul_right _ (by omega)
  have huv : r * (g.m + 1) + c ≠ (r + 1) * (g.m + 1) + c := by
    have : (r + 1) * (g.m + 1) = r * (g.m + 1) + (g.m + 1) := by ring
    omega
  refine ⟨hub r (by omega), hub (r + 1) (by omega),
    by simp only [vEdge, pointId]; exact huv, ?_, ?_, ?_⟩
  · simp only [vEdge]
    split
    · right
      refine ⟨Int.natCast_nonneg _, ?_⟩
      rw [Int.toNat_natCast]
      exact hcell _ (by omega)
    · left; rfl
  · simp only [vEdge]
    split
    · right
      refine ⟨Int.natCast_nonneg _, ?_⟩
      rw [Int.toNat_natCast]
      exact hcell _ (by omega)
    · left; rfl
  · simp only [vEdge]
    split
    · split
      · intro _ _ hcontra
        rw [Grid.cellIndex, Grid.cellIndex] at hcontra
        have := Nat.cast_injective (R := Int) hcontra
        omega
      · intro _ hb
        simp at hb
    · intro ha
      simp at ha

theorem mem_edgesOf_wf (g : Grid) (e : Edge) (he : e ∈ edgesOf g) :
    EdgeWF g e := by
  rw [edgesOf, List.mem_append] at he
  rcases he with h | h
  · rw [List.mem_map] at h
    obtain ⟨rc, hrc, rfl⟩ := h
    rw [hPositions, List.mem_flatMap] at hrc
    obtain ⟨r, hr, hc⟩ := hrc
    rw [List.mem_map] at hc
    obtain ⟨c, hc, rfl⟩ := hc
    exact hEdge_wf g r c (List.mem_range.mp hr) (List.mem_range.mp hc)
  · rw [List.mem_map] at h
    obtain ⟨rc, hrc, rfl⟩ := h
    rw [vPositions, List.mem_flatMap] at hrc
    obtain ⟨r, hr, hc⟩ := hrc
    rw [List.mem_map] at hc
    obtain ⟨c, hc, rfl⟩ := hc
    exact vEdge_wf g r c (List.mem_range.mp hr) (List.mem_range.mp hc)

theorem edgeAt_wf (g : Grid) (i : Nat) (hi : i < numEdges g) :
    EdgeWF g (edgeAt g i) := by
  apply mem_edgesOf_wf
  rw [edgeAt, List.getD_eq_getElem _ _ hi]
  exact List.getElem_mem hi

theorem applyDecision_noop (g : Grid) (s : State) (e : Nat) (val : Int)
    (h : s.edgeState.getD e 0 = val) : applyDecision g s e val = (true, s) := by
  unfold applyDecision
  rw [if_pos h]

theorem applyDecision_conflict (g : Grid) (s : State) (e : Nat) (val : Int)
    (h1 : s.edgeState.getD e 0 ≠ val) (h2 : s.edgeState.getD e 0 ≠ 0) :
    applyDecision g s e val = (false, s) := by
  unfold applyDecision
  rw [if_neg h1, if_pos h2]

theorem applyDecision_off_eq (g : Grid) (s : State) (e : Nat)
    (h0 : s.edgeState.getD e 0 = 0) :
    applyDecision g s e (-1) =
      (true,
       { edgeState := s.edgeState.set e (-1)
         pointDegree := s.pointDegree
         pointUndecided := decAt (decAt s.pointUndecided (edgeAt g e).u) (edgeAt g e).v
         cellEdgeCount := s.cellEdgeCount
         cellUndecided := decCell (decCell s.cellUndecided (edgeAt g e).cellA) (edgeAt g e).cellB }) := by
  unfold applyDecision
  simp only [h0]
  rw [if_neg (by decide : ¬((0 : Int) = -1)),
      if_neg (by simp : ¬((0 : Int) ≠ 0)),
      if_neg (by decide : ¬((-1 : Int) = 1))]

theorem applyDecision_on_char (g : Grid) (s : State) (e : Nat)
    (he : e < numEdges g) (hg : GridWF g) (hsz : SizedState g s)
    (h0 : s.edgeState.getD e 0 = 0) :
    applyDecision g s e 1 =
      ((if 2 < s.pointDegree.getD (edgeAt g e).u 0 + 1 ∨
           2 < s.pointDegree.getD (edgeAt g e).v 0 + 1 then false
        else if 0 ≤ (edgeAt g e).cellA ∧ 0 ≤ clueAt g (edgeAt g e).cellA.toNat ∧
           clueAt g (edgeAt g e).cellA.toNat <
             s.cellEdgeCount.getD (edgeAt g e).cellA.toNat 0 + 1 then false
        else if 0 ≤ (edgeAt g e).cellB ∧ 0 ≤ clueAt g (edgeAt g e).cellB.toNat ∧
           clueAt g (edgeAt g e).cellB.toNat <
             s.cellEdgeCount.getD (edgeAt g e).cellB.toNat 0 + 1 then false
        else true),
       { edgeState := s.edgeState.set e 1
         pointDegree := incAt (incAt s.pointDegree (edgeAt g e).u) (edgeAt g e).v
         pointUndecided := decAt (decAt s.pointUndecided (edgeAt g e).u) (edgeAt g e).v
         cellEdgeCount :=
           if 2 < s.pointDegree.getD (edgeAt g e).u 0 + 1 ∨
              2 < s.pointDegree.getD (edgeAt g e).v 0 + 1 then s.cellEdgeCount
           else if 0 ≤ (edgeAt g e).cellA ∧ 0 ≤ clueAt g (edgeAt g e).cellA.toNat ∧
              clueAt g (edgeAt g e).cellA.toNat <
                s.cellEdgeCount.getD (edgeAt g e).cellA.toNat 0 + 1 then
             incCell s.cellEdgeCount (edgeAt g e).cellA
           else incCell (incCell s.cellEdgeCount (edgeAt g e).cellA) (edgeAt g e).cellB
         cellUndecided := decCell (decCell s.cellUndecided (edgeAt g e).cellA) (edgeAt g e).cellB }) := by
  obtain ⟨hu, hv, huv, hca, hcb, hab⟩ := edgeAt_wf g e he
  obtain ⟨hlE, hlD, hlU, hlC, hlW⟩ := hsz
  have hulen : (edgeAt g e).u < s.pointDegree.length := by rw [hlD]; exact hu
  have hvlen : (edgeAt g e).v < s.pointDegree.length := by rw [hlD]; exact hv
  have hvlen2 : (edgeAt g e).v < (incAt s.pointDegree (edgeAt g e).u).length := by
    rw [incAt, List.length_set]; exact hvlen
  have hdu : (incAt s.pointDegree (edgeAt g e).u).getD (edgeAt g e).u 0
      = s.pointDegree.getD (edgeAt g e).u 0 + 1 := getD_set_self _ _ _ _ hulen
  have hdv : (incAt (incAt s.pointDegree (edgeAt g e).u) (edgeAt g e).v).getD (edgeAt g e).v 0
      = s.pointDegree.getD (edgeAt g e).v 0 + 1 := by
    have h1 : (incAt s.pointDegree (edgeAt g e).u).getD (edgeAt g e).v 0
        = s.pointDegree.getD (edgeAt g e).v 0 := getD_set_ne _ _ _ _ _ huv
    calc (incAt (incAt s.pointDegree (edgeAt g e).u) (edgeAt g e).v).getD (edgeAt g e).v 0
        = (incAt s.pointDegree (edgeAt g e).u).getD (edgeAt g e).v 0 + 1 :=
          getD_set_self _ _ _ _ hvlen2
      _ = s.pointDegree.getD (edgeAt g e).v 0 + 1 := by rw [h1]
  unfold applyDecision
  simp only [h0]
  rw [if_neg (by decide : ¬((0 : Int) = 1)),
      if_neg (by simp : ¬((0 : Int) ≠ 0))]
  simp only [if_true, hdu, hdv]
  by_cases hA : 0 ≤ (edgeAt g e).cellA
  · have hcalen : (edgeAt g e).cellA.toNat < s.cellEdgeCount.length := by
      rw [hlC, hg]
      rcases hca with h | h
      · omega
      · exact h.2
    have hcaval : (incAt s.cellEdgeCount (edgeAt g e).cellA.toNat).getD
        (edgeAt g e).cellA.toNat 0 = s.cellEdgeCount.getD (edgeAt g e).cellA.toNat 0 + 1 :=
      getD_set_self _ _ _ _ hcalen
    by_cases hB : 0 ≤ (edgeAt g e).cellB
    · have hne : (edgeAt g e).cellA.toNat ≠ (edgeAt g e).cellB.toNat := by
        intro hcontra
        exact hab hA hB (by omega)
      have hcblen : (edgeAt g e).cellB.toNat <
          (incAt s.cellEdgeCount (edgeAt g e).cellA.toNat).length := by
        rw [incAt, List.length_set, hlC, hg]
        rcases hcb with h | h
        · omega
        · exact h.2
      have hcbval : (incAt (incAt s.cellEdgeCount (edgeAt g e).cellA.toNat)
          (edgeAt g e).cellB.toNat).getD (edgeAt g e).cellB.toNat 0
          = s.cellEdgeCount.getD (edgeAt g e).cellB.toNat 0 + 1 := by
        have h1 : (incAt s.cellEdgeCount (edgeAt g e).cellA.toNat).getD
            (edgeAt g e).cellB.toNat 0 = s.cellEdgeCount.getD (edgeAt g e).cellB.toNat 0 :=
          getD_set_ne _ _ _ _ _ hne
        calc (incAt (incAt s.cellEdgeCount (edgeAt g e).cellA.toNat)
              (edgeAt g e).cellB.toNat).getD (edgeAt g e).cellB.toNat 0
            = (incAt s.cellEdgeCount (edgeAt g e).cellA.toNat).getD
              (edgeAt g e).cellB.toNat 0 + 1 := getD_set_self _ _ _ _ hcblen
          _ = s.cellEdgeCount.getD (edgeAt g e).cellB.toNat 0 + 1 := by rw [h1]
      simp only [incCell, hA, hB, if_true, true_and]
      simp only [hcaval, hcbval]
      split_ifs <;> rfl
    · simp only [incCell, hA, hB, if_true, if_false, true_and, false_and]
      simp only [hcaval]
      split_ifs <;> rfl
  · by_cases hB : 0 ≤ (edgeAt g e).cellB
    · have hcblen : (edgeAt g e).cellB.toNat < s.cellEdgeCount.length := by
        rw [hlC, hg]
        rcases hcb with h | h
        · omega
        · exact h.2
      have hcbval : (incAt s.cellEdgeCount (edgeAt g e).cellB.toNat).getD
          (edgeAt g e).cellB.toNat 0 = s.cellEdgeCount.getD (edgeAt g e).cellB.toNat 0 + 1 :=
        getD_set_self _ _ _ _ hcblen
      simp only [incCell, hA, hB, if_true, if_false, true_and, false_and]
      simp only [hcbval]
      split_ifs <;> rfl
    · simp only [incCell, hA, hB, if_false, false_and]
      split_ifs <;> rfl

theorem incAt_length (l : List Int) (i : Nat) : (incAt l i).length = l.length :=
  List.length_set l i _

theorem decAt_length (l : List Int) (i : Nat) : (decAt l i).length = l.length :=
  List.length_set l i _

theorem decCell_length (l : List Int) (ci : Int) : (decCell l ci).length = l.length := by
  unfold decCell
  split
  · exact decAt_length l _
  · rfl

theorem incCell_length (l : List Int) (ci : Int) : (incCell l ci).length = l.length := by
  unfold incCell
  split
  · exact incAt_length l _
  · rfl

theorem incAt_getD (l : List Int) (i j : Nat) (hi : i < l.length) :
    (incAt l i).getD j 0 = l.getD j 0 + (if i = j then 1 else 0) := by
  by_cases h : i = j
  · subst h
    rw [if_pos rfl]
    exact getD_set_self _ _ _ _ hi
  · rw [if_neg h]
    have h2 : (incAt l i).getD j 0 = l.getD j 0 := getD_set_ne _ _ _ _ _ h
    omega

theorem decAt_getD (l : List Int) (i j : Nat) (hi : i < l.length) :
    (decAt l i).getD j 0 = l.getD j 0 - (if i = j then 1 else 0) := by
  by_cases h : i = j
  · subst h
    rw [if_pos rfl]
    exact getD_set_self _ _ _ _ hi
  · rw [if_neg h]
    have h2 : (decAt l i).getD j 0 = l.getD j 0 := getD_set_ne _ _ _ _ _ h
    omega

theorem decCell_getD (l : List Int) (ci : Int) (c : Nat)
    (hlen : 0 ≤ ci → ci.toNat < l.length) :
    (decCell l ci).getD c 0 = l.getD c 0 - (if ci = (c : Int) then 1 else 0) := by
  unfold decCell
  split
  · next hpos =>
    rw [decAt_getD _ _ _ (hlen hpos)]
    have : (ci.toNat = c) ↔ (ci = (c : Int)) := by omega
    by_cases h : ci = (c : Int)
    · rw [if_pos h, if_pos (this.mpr h)]
    · rw [if_neg h, if_neg (fun hh => h (this.mp hh))]
  · next hneg =>
    have : ¬(ci = (c : Int)) := by omega
    rw [if_neg this]
    omega

theorem incCell_getD (l : List Int) (ci : Int) (c : Nat)
    (hlen : 0 ≤ ci → ci.toNat < l.length) :
    (incCell l ci).getD c 0 = l.getD c 0 + (if ci = (c : Int) then 1 else 0) := by
  unfold incCell
  split
  · next hpos =>
    rw [incAt_getD _ _ _ (hlen hpos)]
    have : (ci.toNat = c) ↔ (ci = (c : Int)) := by omega
    by_cases h : ci = (c : Int)
    · rw [if_pos h, if_pos (this.mpr h)]
    · rw [if_neg h, if_neg (fun hh => h (this.mp hh))]
  · next hneg =>
    have : ¬(ci = (c : Int)) := by omega
    rw [if_neg this]
    omega

/-- Effect on a target-value count over the edge range of setting one
previously arbitrary entry of the decision array. -/
theorem countP_target_set (E : Nat) (A : Nat → Prop) [DecidablePred A]
    (es : List Int) (e : Nat) (he : e < E) (helen : e < es.length) (v t : Int) :
    (List.range E).countP (fun i => decide (A i ∧ (es.set e v).getD i 0 = t))
      + (if A e ∧ es.getD e 0 = t then 1 else 0)
    = (List.range E).countP (fun i => decide (A i ∧ es.getD i 0 = t))
      + (if A e ∧ v = t then 1 else 0) := by
  have h1 : (es.set e v).getD e 0 = v := getD_set_self _ _ _ _ helen
  have hswitch := countP_range_switch E e he
    (fun i => decide (A i ∧ es.getD i 0 = t))
    (fun i => decide (A i ∧ (es.set e v).getD i 0 = t))
    (fun i hne => by
      have hx : (es.set e v).getD i 0 = es.getD i 0 :=
        getD_set_ne _ _ _ _ _ (Ne.symm hne)
      simp only [hx])
  simp only [] at hswitch
  have hiff2 : (A e ∧ (es.set e v).getD e 0 = t) ↔ (A e ∧ v = t) := by rw [h1]
  have conv2 : (if decide (A e ∧ (es.set e v).getD e 0 = t) = true then 1 else 0)
      = (if A e ∧ v = t then 1 else 0) := by
    by_cases h : A e ∧ v = t
    · rw [if_pos h, if_pos]
      rw [decide_eq_true_eq]
      exact hiff2.mpr h
    · rw [if_neg h, if_neg]
      simp only [decide_eq_true_eq]
      exact fun hp => h (hiff2.mp hp)
  have conv1 : (if decide (A e ∧ es.getD e 0 = t) = true then 1 else 0)
      = (if A e ∧ es.getD e 0 = t then 1 else 0) := by
    by_cases h : A e ∧ es.getD e 0 = t <;> simp [h]
  rw [conv1, conv2] at hswitch
  exact hswitch

theorem agree_dec2 (l : List Int) (u v p : Nat) (a b : Nat)
    (huv : u ≠ v) (hu : u < l.length) (hv : v < l.length)
    (hold : l.getD p 0 = (a : Int))
    (hcnt : b + (if u = p ∨ v = p then 1 else 0) = a) :
    (decAt (decAt l u) v).getD p 0 = (b : Int) := by
  have h1 : (decAt l u).getD p 0 = l.getD p 0 - (if u = p then 1 else 0) :=
    decAt_getD l u p hu
  have h2 : (decAt (decAt l u) v).getD p 0
      = (decAt l u).getD p 0 - (if v = p then 1 else 0) :=
    decAt_getD _ v p (by rw [decAt_length]; exact hv)
  by_cases hup : u = p <;> by_cases hvp : v = p
  · exact absurd (hup.trans hvp.symm) huv
  · rw [if_pos hup] at h1
    rw [if_neg hvp] at h2
    rw [if_pos (Or.inl hup)] at hcnt
    omega
  · rw [if_neg hup] at h1
    rw [if_pos hvp] at h2
    rw [if_pos (Or.inr hvp)] at hcnt
    omega
  · rw [if_neg hup] at h1
    rw [if_neg hvp] at h2
    rw [if_neg (fun h => h.elim hup hvp)] at hcnt
    omega

theorem agree_inc2 (l : List Int) (u v p : Nat) (a b : Nat)
    (huv : u ≠ v) (hu : u < l.length) (hv : v < l.length)
    (hold : l.getD p 0 = (a : Int))
    (hcnt : a + (if u = p ∨ v = p then 1 else 0) = b) :
    (incAt (incAt l u) v).getD p 0 = (b : Int) := by
  have h1 : (incAt l u).getD p 0 = l.getD p 0 + (if u = p then 1 else 0) :=
    incAt_getD l u p hu
  have h2 : (incAt (incAt l u) v).getD p 0
      = (incAt l u).getD p 0 + (if v = p then 1 else 0) :=
    incAt_getD _ v p (by rw [incAt_length]; exact hv)
  by_cases hup : u = p <;> by_cases hvp : v = p
  · exact absurd (hup.trans hvp.symm) huv
  · rw [if_pos hup] at h1
    rw [if_neg hvp] at h2
    rw [if_pos (Or.inl hup)] at hcnt
    omega
  · rw [if_neg hup] at h1
    rw [if_pos hvp] at h2
    rw [if_pos (Or.inr hvp)] at hcnt
    omega
  · rw [if_neg hup] at h1
    rw [if_neg hvp] at h2
    rw [if_neg (fun h => h.elim hup hvp)] at hcnt
    omega

theorem agree_decCell2 (l : List Int) (ca cb : Int) (c : Nat) (a b : Nat)
    (hab : 0 ≤ ca → 0 ≤ cb → ca ≠ cb)
    (hla : 0 ≤ ca → ca.toNat < l.length) (hlb : 0 ≤ cb → cb.toNat < l.length)
    (hold : l.getD c 0 = (a : Int))
    (hcnt : b + (if ca = (c : Int) ∨ cb = (c : Int) then 1 else 0) = a) :
    (decCell (decCell l ca) cb).getD c 0 = (b : Int) := by
  have h1 := decCell_getD l ca c hla
  have h2 := decCell_getD (decCell l ca) cb c
    (fun h => by rw [decCell_length]; exact hlb h)
  by_cases h3 : ca = (c : Int) <;> by_cases h4 : cb = (c : Int)
  · exact absurd (h3.trans h4.symm) (hab (by omega) (by omega))
  · rw [if_pos h3] at h1
    rw [if_neg h4] at h2
    rw [if_pos (Or.inl h3)] at hcnt
    omega
  · rw [if_neg h3] at h1
    rw [if_pos h4] at h2
    rw [if_pos (Or.inr h4)] at hcnt
    omega
  · rw [if_neg h3] at h1
    rw [if_neg h4] at h2
    rw [if_neg (fun h => h.elim h3 h4)] at hcnt
    omega

theorem agree_incCell2 (l : List Int) (ca cb : Int) (c : Nat) (a b : Nat)
    (hab : 0 ≤ ca → 0 ≤ cb → ca ≠ cb)
    (hla : 0 ≤ ca → ca.toNat < l.length) (hlb : 0 ≤ cb → cb.toNat < l.length)
    (hold : l.getD c 0 = (a : Int))
    (hcnt : a + (if ca = (c : Int) ∨ cb = (c : Int) then 1 else 0) = b) :
    (incCell (incCell l ca) cb).getD c 0 = (b : Int) := by
  have h1 := incCell_getD l ca c hla
  have h2 := incCell_getD (incCell l ca) cb c
    (fun h => by rw [incCell_length]; exact hlb h)
  by_cases h3 : ca = (c : Int) <;> by_cases h4 : cb = (c : Int)
  · exact absurd (h3.trans h4.symm) (hab (by omega) (by omega))
  · rw [if_pos h3] at h1
    rw [if_neg h4] at h2
    rw [if_pos (Or.inl h3)] at hcnt
    omega
  · rw [if_neg h3] at h1
    rw [if_pos h4] at h2
    rw [if_pos (Or.inr h4)] at hcnt
    omega
  · rw [if_neg h3] at h1
    rw [if_neg h4] at h2
    rw [if_neg (fun h => h.elim h3 h4)] at hcnt
    omega

/-- Setting an undecided entry to `v ≠ 0`: the count of value-`v`
entries among `A`-edges grows by one exactly on `A e`. -/
theorem countP_set_same (E : Nat) (A : Nat → Prop) [DecidablePred A]
    (es : List Int) (e : Nat) (he : e < E) (helen : e < es.length) (v : Int)
    (h0 : es.getD e 0 = 0) (hv : v ≠ 0) :
    (List.range E).countP (fun i => decide (A i ∧ (es.set e v).getD i 0 = v))
      = (List.range E).countP (fun i => decide (A i ∧ es.getD i 0 = v))
        + (if A e then 1 else 0) := by
  have h := countP_target_set E A es e he helen v v
  by_cases hA : A e
  · rw [if_pos hA]
    rw [if_neg (fun hc => hv (by rw [← hc.2]; exact h0)), if_pos ⟨hA, rfl⟩] at h
    omega
  · rw [if_neg hA]
    rw [if_neg (fun hc => hA hc.1), if_neg (fun hc => hA hc.1)] at h
    omega

/-- Setting an undecided entry to `v ≠ 0`: the count of undecided
entries among `A`-edges drops by one exactly on `A e`. -/
theorem countP_set_zero (E : Nat) (A : Nat → Prop) [DecidablePred A]
    (es : List Int) (e : Nat) (he : e < E) (helen : e < es.length) (v : Int)
    (h0 : es.getD e 0 = 0) (hv : v ≠ 0) :
    (List.range E).countP (fun i => decide (A i ∧ (es.set e v).getD i 0 = 0))
      + (if A e then 1 else 0)
    = (List.range E).countP (fun i => decide (A i ∧ es.getD i 0 = 0)) := by
  have h := countP_target_set E A es e he helen v 0
  by_cases hA : A e
  · rw [if_pos hA]
    rw [if_pos ⟨hA, h0⟩, if_neg (fun hc => hv hc.2)] at h
    omega
  · rw [if_neg hA]
    rw [if_neg (fun hc => hA hc.1), if_neg (fun hc => hA hc.1)] at h
    omega

/-- Setting an undecided entry to `v`: counts of a third value
`t ∉ {0, v}` are unchanged. -/
theorem countP_set_other (E : Nat) (A : Nat → Prop) [DecidablePred A]
    (es : List Int) (e : Nat) (he : e < E) (helen : e < es.length) (v t : Int)
    (h0 : es.getD e 0 = 0) (ht0 : t ≠ 0) (htv : t ≠ v) :
    (List.range E).countP (fun i => decide (A i ∧ (es.set e v).getD i 0 = t))
      = (List.range E).countP (fun i => decide (A i ∧ es.getD i 0 = t)) := by
  have h := countP_target_set E A es e he helen v t
  rw [if_neg (fun hc => ht0 (by rw [← hc.2]; exact h0)),
      if_neg (fun hc => htv hc.2.symm)] at h
  omega

/-- Forcing an undecided edge OFF preserves counter agreement. -/
theorem counterOk_forceOff (g : Grid) (s : State) (e : Nat)
    (hg : GridWF g) (he : e < numEdges g) (hok : CounterOk g s)
    (h0 : s.edgeState.getD e 0 = 0) :
    CounterOk g (forceOff g s e) := by
  obtain ⟨⟨hlE, hlD, hlU, hlC, hlW⟩, hpd, hpu, hcc, hcu⟩ := hok
  obtain ⟨hu, hv, huv, hca, hcb, hab⟩ := edgeAt_wf g e he
  have helen : e < s.edgeState.length := by omega
  refine ⟨⟨?_, ?_, ?_, ?_, ?_⟩, ?_, ?_, ?_, ?_⟩
  · simp [forceOff, List.length_set, hlE]
  · simp [forceOff, hlD]
  · simp [forceOff, decAt_length, hlU]
  · simp [forceOff, hlC]
  · simp [forceOff, decCell_length, hlW]
  · intro p hp
    show s.pointDegree.getD p 0 = (onDegOf g (s.edgeState.set e (-1)) p : Int)
    rw [hpd p hp]
    unfold onDegOf
    rw [countP_set_other (numEdges g) _ s.edgeState e he helen (-1) 1 h0
      (by decide) (by decide)]
  · intro p hp
    show (decAt (decAt s.pointUndecided (edgeAt g e).u) (edgeAt g e).v).getD p 0
      = (undDegOf g (s.edgeState.set e (-1)) p : Int)
    apply agree_dec2 _ _ _ _ _ _ huv (by omega) (by omega) (hpu p hp)
    unfold undDegOf
    rw [countP_set_zero (numEdges g) _ s.edgeState e he helen (-1) h0 (by decide)]
  · intro c hc
    show s.cellEdgeCount.getD c 0 = (onCountOf g (s.edgeState.set e (-1)) c : Int)
    rw [hcc c hc]
    unfold onCountOf
    rw [countP_set_other (numEdges g) _ s.edgeState e he helen (-1) 1 h0
      (by decide) (by decide)]
  · intro c hc
    show (decCell (decCell s.cellUndecided (edgeAt g e).cellA) (edgeAt g e).cellB).getD c 0
      = (undCountOf g (s.edgeState.set e (-1)) c : Int)
    apply agree_decCell2 _ _ _ _ _ _ hab
      (fun h => by
        have h2 : (edgeAt g e).cellA.toNat < numCells g := by
          rcases hca with hh | hh
          · omega
          · exact hh.2
        omega)
      (fun h => by
        have h2 : (edgeAt g e).cellB.toNat < numCells g := by
          rcases hcb with hh | hh
          · omega
          · exact hh.2
        omega)
      (hcu c hc)
    unfold undCountOf
    rw [countP_set_zero (numEdges g) _ s.edgeState e he helen (-1) h0 (by decide)]

/-- A successful `applyDecision` preserves counter agreement. -/
theorem counterOk_applyDecision (g : Grid) (s : State) (e : Nat) (val : Int)
    (hg : GridWF g) (he : e < numEdges g) (hok : CounterOk g s)
    (hval : val = 1 ∨ val = -1)
    (hsucc : (applyDecision g s e val).1 = true) :
    CounterOk g (applyDecision g s e val).2 := by
  by_cases hsame : s.edgeState.getD e 0 = val
  · rw [applyDecision_noop g s e val hsame]
    exact hok
  by_cases h0 : s.edgeState.getD e 0 = 0
  case neg =>
    rw [applyDecision_conflict g s e val hsame h0] at hsucc
    simp at hsucc
  obtain ⟨⟨hlE, hlD, hlU, hlC, hlW⟩, hpd, hpu, hcc, hcu⟩ := hok
  obtain ⟨hu, hv, huv, hca, hcb, hab⟩ := edgeAt_wf g e he
  have hgl : g.clues.length = numCells g := hg
  have helen : e < s.edgeState.length := by omega
  have hcaBound : 0 ≤ (edgeAt g e).cellA → (edgeAt g e).cellA.toNat < numCells g := by
    intro h
    rcases hca with hh | hh
    · omega
    · exact hh.2
  have hcbBound : 0 ≤ (edgeAt g e).cellB → (edgeAt g e).cellB.toNat < numCells g := by
    intro h
    rcases hcb with hh | hh
    · omega
    · exact hh.2
  rcases hval with h1 | h1
  · subst h1
    rw [applyDecision_on_char g s e he hg ⟨hlE, hlD, hlU, hlC, hlW⟩ h0] at hsucc ⊢
    split_ifs at hsucc with hC1 hC2 hC3
    refine ⟨⟨?_, ?_, ?_, ?_, ?_⟩, ?_, ?_, ?_, ?_⟩
    · simp [List.length_set, hlE]
    · simp [incAt_length, hlD]
    · simp [decAt_length, hlU]
    · simp only []
      rw [if_neg hC1, if_neg hC2, incCell_length, incCell_length]
      exact hlC
    · simp [decCell_length, hlW]
    · intro p hp
      show (incAt (incAt s.pointDegree (edgeAt g e).u) (edgeAt g e).v).getD p 0
        = (onDegOf g (s.edgeState.set e 1) p : Int)
      apply agree_inc2 _ _ _ _ _ _ huv (by omega) (by omega) (hpd p hp)
      unfold onDegOf
      rw [countP_set_same (numEdges g) _ s.edgeState e he helen 1 h0 (by decide)]
    · intro p hp
      show (decAt (decAt s.pointUndecided (edgeAt g e).u) (edgeAt g e).v).getD p 0
        = (undDegOf g (s.edgeState.set e 1) p : Int)
      apply agree_dec2 _ _ _ _ _ _ huv (by omega) (by omega) (hpu p hp)
      unfold undDegOf
      rw [countP_set_zero (numEdges g) _ s.edgeState e he helen 1 h0 (by decide)]
    · intro c hc
      show (if 2 < s.pointDegree.getD (edgeAt g e).u 0 + 1 ∨
              2 < s.pointDegree.getD (edgeAt g e).v 0 + 1 then s.cellEdgeCount
            else if 0 ≤ (edgeAt g e).cellA ∧ 0 ≤ clueAt g (edgeAt g e).cellA.toNat ∧
              clueAt g (edgeAt g e).cellA.toNat <
                s.cellEdgeCount.getD (edgeAt g e).cellA.toNat 0 + 1 then
              incCell s.cellEdgeCount (edgeAt g e).cellA
            else incCell (incCell s.cellEdgeCount (edgeAt g e).cellA)
              (edgeAt g e).cellB).getD c 0
        = (onCountOf g (s.edgeState.set e 1) c : Int)
      rw [if_neg hC1, if_neg hC2]
      apply agree_incCell2 _ _ _ _ _ _ hab
        (fun h => by have h2 := hcaBound h; omega)
        (fun h => by have h2 := hcbBound h; omega)
        (hcc c hc)
      unfold onCountOf
      rw [countP_set_same (numEdges g) _ s.edgeState e he helen 1 h0 (by decide)]
    · intro c hc
      show (decCell (decCell s.cellUndecided (edgeAt g e).cellA) (edgeAt g e).cellB).getD c 0
        = (undCountOf g (s.edgeState.set e 1) c : Int)
      apply agree_decCell2 _ _ _ _ _ _ hab
        (fun h => by have h2 := hcaBound h; omega)
        (fun h => by have h2 := hcbBound h; omega)
        (hcu c hc)
      unfold undCountOf
      rw [countP_set_zero (numEdges g) _ s.edgeState e he helen 1 h0 (by decide)]
  · subst h1
    rw [applyDecision_off_eq g s e h0]
    exact counterOk_forceOff g s e hg he
      ⟨⟨hlE, hlD, hlU, hlC, hlW⟩, hpd, hpu, hcc, hcu⟩ h0

theorem pushAt_length (t : List (List Nat)) (i : Nat) (x : Nat) :
    (pushAt t i x).length = t.length := List.length_set t i _

theorem pushCell_length (t : List (List Nat)) (ci : Int) (x : Nat) :
    (pushCell t ci x).length = t.length := by
  unfold pushCell
  split
  · exact pushAt_length t _ x
  · rfl

theorem pushAt_getD_self (t : List (List Nat)) (i : Nat) (x : Nat)
    (h : i < t.length) : (pushAt t i x).getD i [] = t.getD i [] ++ [x] :=
  getD_set_self _ _ _ _ h

theorem pushAt_getD_ne (t : List (List Nat)) (i j : Nat) (x : Nat)
    (h : i ≠ j) : (pushAt t i x).getD j [] = t.getD j [] :=
  getD_set_ne _ _ _ _ _ h

theorem pushCell_getD (t : List (List Nat)) (ci : Int) (c : Nat) (x : Nat)
    (hlen : 0 ≤ ci → ci.toNat < t.length) :
    (pushCell t ci x).getD c []
      = t.getD c [] ++ (if ci = (c : Int) then [x] else []) := by
  unfold pushCell
  split
  · next hpos =>
    by_cases h : ci.toNat = c
    · rw [if_pos (by omega : ci = (c : Int))]
      rw [← h]
      exact pushAt_getD_self t _ x (hlen hpos)
    · rw [if_neg (by omega : ¬(ci = (c : Int)))]
      rw [pushAt_getD_ne t _ c x h]
      simp
  · next hneg =>
    rw [if_neg (by omega : ¬(ci = (c : Int)))]
    simp

/-- Characterisation of the incidence tables: lengths, and each bucket
is the filter of the edge range by the corresponding incidence. -/
theorem partialTables_spec (g : Grid) (k : Nat) (hk : k ≤ numEdges g) :
    (partialTables g k).cellEdges.length = numCells g ∧
    (partialTables g k).pointEdges.length = numPoints g ∧
    (∀ c, c < numCells g → (partialTables g k).cellEdges.getD c []
        = (List.range k).filter (fun i =>
            decide ((edgeAt g i).cellA = (c : Int) ∨ (edgeAt g i).cellB = (c : Int)))) ∧
    (∀ p, p < numPoints g → (partialTables g k).pointEdges.getD p []
        = (List.range k).filter (fun i =>
            decide ((edgeAt g i).u = p ∨ (edgeAt g i).v = p))) := by
  induction k with
  | zero =>
    refine ⟨by simp [partialTables, numCells], by simp [partialTables, numPoints], ?_, ?_⟩
    · intro c hc
      simp [partialTables]
    · intro p hp
      simp [partialTables]
  | succ n ih =>
    obtain ⟨ihlc, ihlp, ihc, ihp⟩ := ih (by omega)
    have hn : n < numEdges g := by omega
    obtain ⟨hu, hv, huv, hca, hcb, hab⟩ := edgeAt_wf g n hn
    have hstep : partialTables g (n + 1) = tableStep g (partialTables g n) n := by
      unfold partialTables
      rw [List.range_succ, List.foldl_append]
      rfl
    have hcaBound : 0 ≤ (edgeAt g n).cellA →
        (edgeAt g n).cellA.toNat < (partialTables g n).cellEdges.length := by
      intro h
      rcases hca with hh | hh
      · omega
      · omega
    have hcbBound : 0 ≤ (edgeAt g n).cellB →
        (edgeAt g n).cellB.toNat < (pushCell (partialTables g n).cellEdges
          (edgeAt g n).cellA n).length := by
      intro h
      rw [pushCell_length]
      rcases hcb with hh | hh
      · omega
      · omega
    refine ⟨?_, ?_, ?_, ?_⟩
    · rw [hstep]
      show (pushCell (pushCell (partialTables g n).cellEdges (edgeAt g n).cellA n)
        (edgeAt g n).cellB n).length = numCells g
      rw [pushCell_length, pushCell_length]
      exact ihlc
    · rw [hstep]
      show (pushAt (pushAt (partialTables g n).pointEdges (edgeAt g n).u n)
        (edgeAt g n).v n).length = numPoints g
      rw [pushAt_length, pushAt_length]
      exact ihlp
    · intro c hc
      rw [hstep]
      show (pushCell (pushCell (partialTables g n).cellEdges (edgeAt g n).cellA n)
        (edgeAt g n).cellB n).getD c [] = _
      rw [pushCell_getD _ _ _ _ hcbBound, pushCell_getD _ _ _ _ hcaBound, ihc c hc]
      rw [List.range_succ, List.filter_append]
      by_cases h3 : (edgeAt g n).cellA = (c : Int) <;>
        by_cases h4 : (edgeAt g n).cellB = (c : Int)
      · exact absurd (h3.trans h4.symm) (hab (by omega) (by omega))
      · rw [if_pos h3, if_neg h4]
        simp [h3, h4]
      · rw [if_neg h3, if_pos h4]
        simp [h3, h4]
      · rw [if_neg h3, if_neg h4]
        simp [h3, h4]
    · intro p hp
      rw [hstep]
      show (pushAt (pushAt (partialTables g n).pointEdges (edgeAt g n).u n)
        (edgeAt g n).v n).getD p [] = _
      rw [List.range_succ, List.filter_append]
      by_cases h3 : (edgeAt g n).u = p <;> by_cases h4 : (edgeAt g n).v = p
      · exact absurd (h3.trans h4.symm) huv
      · subst h3
        rw [pushAt_getD_ne _ _ _ _ h4]
        rw [pushAt_getD_self _ _ _ (by omega)]
        rw [ihp _ hp]
        simp [h4]
      · subst h4
        rw [pushAt_getD_self _ _ _ (by rw [pushAt_length]; omega)]
        rw [pushAt_getD_ne _ _ _ _ huv]
        rw [ihp _ hp]
        simp [h3]
      · rw [pushAt_getD_ne _ _ _ _ h4, pushAt_getD_ne _ _ _ _ h3, ihp p hp]
        simp [h3, h4]

theorem getD_replicate {α : Type} (n i : Nat) (x d : α) (h : i < n) :
    (List.replicate n x).getD i d = x := by
  rw [List.getD_eq_getElem _ _ (by simp [List.length_replicate]; omega)]
  exact List.getElem_replicate _ _

theorem getD_map_range {α : Type} (f : Nat → α) (n i : Nat) (d : α) (h : i < n) :
    ((List.range n).map f).getD i d = f i := by
  rw [List.getD_eq_getElem _ _ (by simp [List.length_map, List.length_range]; omega)]
  simp

theorem cellEdges_getD (g : Grid) (c : Nat) (hc : c < numCells g) :
    (buildTables g).cellEdges.getD c []
      = (List.range (numEdges g)).filter (fun i =>
          decide ((edgeAt g i).cellA = (c : Int) ∨ (edgeAt g i).cellB = (c : Int))) :=
  (partialTables_spec g (numEdges g) (le_refl _)).2.2.1 c hc

theorem pointEdges_getD (g : Grid) (p : Nat) (hp : p < numPoints g) :
    (buildTables g).pointEdges.getD p []
      = (List.range (numEdges g)).filter (fun i =>
          decide ((edgeAt g i).u = p ∨ (edgeAt g i).v = p)) :=
  (partialTables_spec g (numEdges g) (le_refl _)).2.2.2 p hp

theorem mem_cellEdges (g : Grid) (c i : Nat) (hc : c < numCells g) :
    i ∈ (buildTables g).cellEdges.getD c [] ↔
      (i < numEdges g ∧
        ((edgeAt g i).cellA = (c : Int) ∨ (edgeAt g i).cellB = (c : Int))) := by
  rw [cellEdges_getD g c hc, List.mem_filter, List.mem_range]
  simp

theorem mem_pointEdges (g : Grid) (p i : Nat) (hp : p < numPoints g) :
    i ∈ (buildTables g).pointEdges.getD p [] ↔
      (i < numEdges g ∧ ((edgeAt g i).u = p ∨ (edgeAt g i).v = p)) := by
  rw [pointEdges_getD g p hp, List.mem_filter, List.mem_range]
  simp

/-- The initial state satisfies counter agreement. -/
theorem counterOk_initialState (g : Grid) : CounterOk g (initialState g) := by
  refine ⟨⟨?_, ?_, ?_, ?_, ?_⟩, ?_, ?_, ?_, ?_⟩
  · simp [initialState, List.length_replicate]
  · simp [initialState, List.length_replicate]
  · simp [initialState, List.length_map, List.length_range]
  · simp [initialState, List.length_replicate]
  · simp [initialState, List.length_map, List.length_range]
  · intro p hp
    show (List.replicate (numPoints g) (0 : Int)).getD p 0
      = (onDegOf g (List.replicate (numEdges g) 0) p : Int)
    rw [getD_replicate _ _ _ _ hp]
    have : onDegOf g (List.replicate (numEdges g) 0) p = 0 := by
      unfold onDegOf
      rw [List.countP_eq_zero]
      intro a ha
      have haE : a < numEdges g := List.mem_range.mp ha
      simp [getD_replicate _ _ _ _ haE]
    rw [this]
    rfl
  · intro p hp
    show ((List.range (numPoints g)).map (fun i =>
        (((buildTables g).pointEdges.getD i []).length : Int))).getD p 0
      = (undDegOf g (List.replicate (numEdges g) 0) p : Int)
    rw [getD_map_range _ _ _ _ hp, pointEdges_getD g p hp]
    have : undDegOf g (List.replicate (numEdges g) 0) p
        = ((List.range (numEdges g)).filter (fun i =>
            decide ((edgeAt g i).u = p ∨ (edgeAt g i).v = p))).length := by
      unfold undDegOf
      rw [← List.countP_eq_length_filter]
      apply List.countP_congr
      intro a ha
      have haE : a < numEdges g := List.mem_range.mp ha
      simp [getD_replicate _ _ _ _ haE]
    rw [this]
  · intro c hc
    show (List.replicate g.clues.length (0 : Int)).getD c 0
      = (onCountOf g (List.replicate (numEdges g) 0) c : Int)
    have h1 : onCountOf g (List.replicate (numEdges g) 0) c = 0 := by
      unfold onCountOf
      rw [List.countP_eq_zero]
      intro a ha
      have haE : a < numEdges g := List.mem_range.mp ha
      simp [getD_replicate _ _ _ _ haE]
    rw [h1]
    by_cases h : c < g.clues.length
    · rw [getD_replicate _ _ _ _ h]
      rfl
    · rw [List.getD_eq_default]
      · rfl
      · simp [List.length_replicate]
        omega
  · intro c hc
    show ((List.range (numCells g)).map (fun i =>
        (((buildTables g).cellEdges.getD i []).length : Int))).getD c 0
      = (undCountOf g (List.replicate (numEdges g) 0) c : Int)
    rw [getD_map_range _ _ _ _ hc, cellEdges_getD g c hc]
    have : undCountOf g (List.replicate (numEdges g) 0) c
        = ((List.range (numEdges g)).filter (fun i =>
            decide ((edgeAt g i).cellA = (c : Int) ∨ (edgeAt g i).cellB = (c : Int)))).length := by
      unfold undCountOf
      rw [← List.countP_eq_length_filter]
      apply List.countP_congr
      intro a ha
      have haE : a < numEdges g := List.mem_range.mp ha
      simp [getD_replicate _ _ _ _ haE]
    rw [this]

theorem enqueueCell_s (g : Grid) (ps : PropState) (ci : Int) :
    (enqueueCell g ps ci).s = ps.s := by
  unfold enqueueCell
  split <;> rfl

theorem enqueuePoint_s (ps : PropState) (p : Nat) :
    (enqueuePoint ps p).s = ps.s := by
  unfold enqueuePoint
  split <;> rfl

theorem cellEdges_length (g : Grid) :
    (buildTables g).cellEdges.length = numCells g :=
  (partialTables_spec g (numEdges g) (le_refl _)).1

theorem pointEdges_length (g : Grid) :
    (buildTables g).pointEdges.length = numPoints g :=
  (partialTables_spec g (numEdges g) (le_refl _)).2.1

theorem mem_cellEdges_lt (g : Grid) (c i : Nat)
    (h : i ∈ (buildTables g).cellEdges.getD c []) : i < numEdges g := by
  by_cases hc : c < numCells g
  · exact ((mem_cellEdges g c i hc).mp h).1
  · rw [List.getD_eq_default] at h
    · cases h
    · rw [cellEdges_length g]
      omega

theorem mem_pointEdges_lt (g : Grid) (p i : Nat)
    (h : i ∈ (buildTables g).pointEdges.getD p []) : i < numEdges g := by
  by_cases hp : p < numPoints g
  · exact ((mem_pointEdges g p i hp).mp h).1
  · rw [List.getD_eq_default] at h
    · cases h
    · rw [pointEdges_length g]
      omega

theorem counterOk_cellOnPass (g : Grid) (hg : GridWF g) :
    ∀ (l : List Nat) (ps : PropState), (∀ i ∈ l, i < numEdges g) →
      CounterOk g ps.s → ∀ ps2, cellOnPass g l ps = some ps2 → CounterOk g ps2.s := by
  intro l
  induction l with
  | nil =>
    intro ps _ hok ps2 h
    unfold cellOnPass at h
    cases h
    exact hok
  | cons eidx rest ih =>
    intro ps hl hok ps2 h
    unfold cellOnPass at h
    by_cases h0 : ps.s.edgeState.getD eidx 0 = 0
    · rw [if_pos h0] at h
      by_cases hb : (applyDecision g ps.s eidx 1).1 = true
      · rw [if_pos hb] at h
        refine ih _ (fun i hi => hl i (List.mem_cons_of_mem _ hi)) ?_ ps2 h
        rw [enqueuePoint_s, enqueuePoint_s, enqueueCell_s, enqueueCell_s]
        exact counterOk_applyDecision g ps.s eidx 1 hg
          (hl eidx (List.mem_cons_self _ _)) hok (Or.inl rfl) hb
      · rw [if_neg hb] at h
        cases h
    · rw [if_neg h0] at h
      exact ih _ (fun i hi => hl i (List.mem_cons_of_mem _ hi)) hok ps2 h

theorem counterOk_cellOffPass (g : Grid) (hg : GridWF g) :
    ∀ (l : List Nat) (ps : PropState), (∀ i ∈ l, i < numEdges g) →
      CounterOk g ps.s → CounterOk g (cellOffPass g l ps).s := by
  intro l
  induction l with
  | nil =>
    intro ps _ hok
    exact hok
  | cons eidx rest ih =>
    intro ps hl hok
    unfold cellOffPass
    by_cases h0 : ps.s.edgeState.getD eidx 0 = 0
    · rw [if_pos h0]
      refine ih _ (fun i hi => hl i (List.mem_cons_of_mem _ hi)) ?_
      rw [enqueuePoint_s, enqueuePoint_s]
      exact counterOk_forceOff g ps.s eidx hg
        (hl eidx (List.mem_cons_self _ _)) hok h0
    · rw [if_neg h0]
      exact ih _ (fun i hi => hl i (List.mem_cons_of_mem _ hi)) hok

theorem counterOk_pointOnPass (g : Grid) (hg : GridWF g) (ptIdx : Nat) :
    ∀ (l : List Nat) (ps : PropState), (∀ i ∈ l, i < numEdges g) →
      CounterOk g ps.s → ∀ ps2, pointOnPass g ptIdx l ps = some ps2 → CounterOk g ps2.s := by
  intro l
  induction l with
  | nil =>
    intro ps _ hok ps2 h
    unfold pointOnPass at h
    cases h
    exact hok
  | cons eidx rest ih =>
    intro ps hl hok ps2 h
    unfold pointOnPass at h
    by_cases h0 : ps.s.edgeState.getD eidx 0 = 0
    · rw [if_pos h0] at h
      by_cases hb : (applyDecision g ps.s eidx 1).1 = true
      · rw [if_pos hb] at h
        refine ih _ (fun i hi => hl i (List.mem_cons_of_mem _ hi)) ?_ ps2 h
        rw [enqueuePoint_s, enqueueCell_s, enqueueCell_s]
        exact counterOk_applyDecision g ps.s eidx 1 hg
          (hl eidx (List.mem_cons_self _ _)) hok (Or.inl rfl) hb
      · rw [if_neg hb] at h
        cases h
    · rw [if_neg h0] at h
      exact ih _ (fun i hi => hl i (List.mem_cons_of_mem _ hi)) hok ps2 h

theorem counterOk_pointOffPass (g : Grid) (hg : GridWF g) (ptIdx : Nat) :
    ∀ (l : List Nat) (ps : PropState), (∀ i ∈ l, i < numEdges g) →
      CounterOk g ps.s → CounterOk g (pointOffPass g ptIdx l ps).s := by
  intro l
  induction l with
  | nil =>
    intro ps _ hok
    exact hok
  | cons eidx rest ih =>
    intro ps hl hok
    unfold pointOffPass
    by_cases h0 : ps.s.edgeState.getD eidx 0 = 0
    · rw [if_pos h0]
      refine ih _ (fun i hi => hl i (List.mem_cons_of_mem _ hi)) ?_
      rw [enqueuePoint_s]
      exact counterOk_forceOff g ps.s eidx hg
        (hl eidx (List.mem_cons_self _ _)) hok h0
    · rw [if_neg h0]
      exact ih _ (fun i hi => hl i (List.mem_cons_of_mem _ hi)) hok

theorem counterOk_processCell (g : Grid) (hg : GridWF g) (cellIdx : Nat)
    (ps ps2 : PropState) (hok : CounterOk g ps.s)
    (h : processCell g (buildTables g) cellIdx ps = some ps2) :
    CounterOk g ps2.s := by
  unfold processCell at h
  by_cases h1 : clueAt g cellIdx < 0
  · rw [if_pos h1] at h
    cases h
    exact hok
  rw [if_neg h1] at h
  by_cases h2 : ps.s.cellEdgeCount.getD cellIdx 0 + ps.s.cellUndecided.getD cellIdx 0
      = clueAt g cellIdx
  · rw [if_pos h2] at h
    exact counterOk_cellOnPass g hg _
      { ps with cellQueued := ps.cellQueued.set cellIdx false }
      (fun i hi => mem_cellEdges_lt g cellIdx i hi) hok ps2 h
  rw [if_neg h2] at h
  by_cases h3 : ps.s.cellEdgeCount.getD cellIdx 0 = clueAt g cellIdx ∧
      0 < ps.s.cellUndecided.getD cellIdx 0
  · rw [if_pos h3] at h
    cases h
    exact counterOk_cellOffPass g hg _
      { ps with cellQueued := ps.cellQueued.set cellIdx false }
      (fun i hi => mem_cellEdges_lt g cellIdx i hi) hok
  · rw [if_neg h3] at h
    cases h
    exact hok

theorem counterOk_processPoint (g : Grid) (hg : GridWF g) (ptIdx : Nat)
    (ps ps2 : PropState) (hok : CounterOk g ps.s)
    (h : processPoint g (buildTables g) ptIdx ps = some ps2) :
    CounterOk g ps2.s := by
  unfold processPoint at h
  by_cases h1 : 2 ≤ ps.s.pointDegree.getD ptIdx 0 ∨
      (ps.s.pointDegree.getD ptIdx 0 = 0 ∧ ps.s.pointUndecided.getD ptIdx 0 = 0)
  · rw [if_pos h1] at h
    cases h
    exact hok
  rw [if_neg h1] at h
  by_cases h2 : ps.s.pointDegree.getD ptIdx 0 = 1 ∧ ps.s.pointUndecided.getD ptIdx 0 = 1
  · rw [if_pos h2] at h
    exact counterOk_pointOnPass g hg ptIdx _
      { ps with pointQueued := ps.pointQueued.set ptIdx false }
      (fun i hi => mem_pointEdges_lt g ptIdx i hi) hok ps2 h
  rw [if_neg h2] at h
  by_cases h3 : ps.s.pointDegree.getD ptIdx 0 = 2 ∧ 0 < ps.s.pointUndecided.getD ptIdx 0
  · rw [if_pos h3] at h
    cases h
    exact counterOk_pointOffPass g hg ptIdx _
      { ps with pointQueued := ps.pointQueued.set ptIdx false }
      (fun i hi => mem_pointEdges_lt g ptIdx i hi) hok
  · rw [if_neg h3] at h
    cases h
    exact hok

theorem counterOk_propLoop (g : Grid) (hg : GridWF g) :
    ∀ (fuel : Nat) (mode : Bool) (ps : PropState) (s2 : State),
      CounterOk g ps.s → propLoop g (buildTables g) fuel mode ps = some s2 →
      CounterOk g s2 := by
  intro fuel
  induction fuel with
  | zero =>
    intro mode ps s2 _ h
    cases h
  | succ n ih =>
    intro mode ps s2 hok h
    rcases mode
    · unfold propLoop at h
      rcases hq : ps.pointQueue with _ | ⟨ptIdx, rest⟩
      · rw [hq] at h
        simp only [] at h
        by_cases hce : ps.cellQueue.isEmpty = true
        · rw [if_pos hce] at h
          cases h
          exact hok
        · rw [if_neg hce] at h
          exact ih true ps s2 hok h
      · rw [hq] at h
        simp only [] at h
        rcases hpr : processPoint g (buildTables g) ptIdx { ps with pointQueue := rest }
          with _ | ps3
        · rw [hpr] at h
          simp only [] at h
          cases h
        · rw [hpr] at h
          simp only [] at h
          exact ih false ps3 s2
            (counterOk_processPoint g hg ptIdx { ps with pointQueue := rest } ps3 hok hpr) h
    · unfold propLoop at h
      rcases hq : ps.cellQueue with _ | ⟨cellIdx, rest⟩
      · rw [hq] at h
        simp only [] at h
        exact ih false ps s2 hok h
      · rw [hq] at h
        simp only [] at h
        rcases hpr : processCell g (buildTables g) cellIdx { ps with cellQueue := rest }
          with _ | ps3
        · rw [hpr] at h
          simp only [] at h
          cases h
        · rw [hpr] at h
          simp only [] at h
          exact ih true ps3 s2
            (counterOk_processCell g hg cellIdx { ps with cellQueue := rest } ps3 hok hpr) h

/-- A successful propagator run preserves counter agreement. -/
theorem counterOk_propagate (g : Grid) (hg : GridWF g) (fuel : Nat)
    (s s2 : State) (hok : CounterOk g s)
    (h : propagateConstraints g fuel s = some s2) : CounterOk g s2 := by
  unfold propagateConstraints at h
  by_cases hchk : ((clueCells g).any (fun cell =>
      (decide (clueAt g cell < s.cellEdgeCount.getD cell 0)) ||
      (decide (s.cellEdgeCount.getD cell 0 + s.cellUndecided.getD cell 0 < clueAt g cell)))) = true
  · rw [if_pos hchk] at h
    cases h
  · rw [if_neg hchk] at h
    exact counterOk_propLoop g hg fuel true _ s2 hok h

/-- Characterisation of the partial adjacency build: length, soundness
of neighbour entries, per-point degree, and the start marker. -/
theorem partialAdj_spec (g : Grid) (s : State) (k : Nat) (hk : k ≤ numEdges g) :
    (partialAdj g s k).1.length = numPoints g ∧
    (∀ p q, q ∈ (partialAdj g s k).1.getD p [] → OnAdjRel g s.edgeState p q) ∧
    (∀ p, p < numPoints g → ((partialAdj g s k).1.getD p []).length
        = (List.range k).countP (fun i =>
            decide ((((edgeAt g i).u = p) ∨ ((edgeAt g i).v = p)) ∧
              s.edgeState.getD i 0 = 1))) ∧
    ((partialAdj g s k).2 = -1 ∨
      (∃ i, i < k ∧ s.edgeState.getD i 0 = 1 ∧
        (partialAdj g s k).2 = ((edgeAt g i).u : Int))) := by
  induction k with
  | zero =>
    refine ⟨by simp [partialAdj], ?_, ?_, Or.inl rfl⟩
    · intro p q hq
      by_cases hp : p < numPoints g
      · rw [show (partialAdj g s 0).1 = List.replicate (numPoints g) [] from rfl] at hq
        rw [getD_replicate _ _ _ _ hp] at hq
        cases hq
      · rw [show (partialAdj g s 0).1 = List.replicate (numPoints g) [] from rfl] at hq
        rw [List.getD_eq_default] at hq
        · cases hq
        · simp [List.length_replicate]
          omega
    · intro p hp
      rw [show (partialAdj g s 0).1 = List.replicate (numPoints g) [] from rfl]
      rw [getD_replicate _ _ _ _ hp]
      simp
  | succ n ih =>
    obtain ⟨ihl, ihs, ihd, ihst⟩ := ih (by omega)
    have hn : n < numEdges g := by omega
    obtain ⟨hu, hv, huv, hca, hcb, hab⟩ := edgeAt_wf g n hn
    have hstep : partialAdj g s (n + 1) = adjStep g s (partialAdj g s n) n := by
      unfold partialAdj
      rw [List.range_succ, List.foldl_append]
      rfl
    by_cases hon : s.edgeState.getD n 0 = 1
    · have hstep2 : partialAdj g s (n + 1) =
          (pushAt (pushAt (partialAdj g s n).1 (edgeAt g n).u (edgeAt g n).v)
            (edgeAt g n).v (edgeAt g n).u,
           if (partialAdj g s n).2 = -1 then ((edgeAt g n).u : Int)
           else (partialAdj g s n).2) := by
        rw [hstep]
        unfold adjStep
        rw [if_pos hon]
      rw [hstep2]
      refine ⟨?_, ?_, ?_, ?_⟩
      · show (pushAt (pushAt (partialAdj g s n).1 (edgeAt g n).u (edgeAt g n).v)
          (edgeAt g n).v (edgeAt g n).u).length = numPoints g
        rw [pushAt_length, pushAt_length]
        exact ihl
      · intro p q hq
        by_cases h3 : (edgeAt g n).u = p <;> by_cases h4 : (edgeAt g n).v = p
        · exact absurd (h3.trans h4.symm) huv
        · subst h3
          rw [pushAt_getD_ne _ _ _ _ h4] at hq
          rw [pushAt_getD_self _ _ _ (by omega)] at hq
          rw [List.mem_append] at hq
          rcases hq with hq | hq
          · exact ihs _ q hq
          · rw [List.mem_singleton] at hq
            subst hq
            exact ⟨n, hn, hon, Or.inl ⟨rfl, rfl⟩⟩
        · subst h4
          rw [pushAt_getD_self _ _ _ (by rw [pushAt_length]; omega)] at hq
          rw [List.mem_append] at hq
          rcases hq with hq | hq
          · rw [pushAt_getD_ne _ _ _ _ huv] at hq
            exact ihs _ q hq
          · rw [List.mem_singleton] at hq
            subst hq
            exact ⟨n, hn, hon, Or.inr ⟨rfl, rfl⟩⟩
        · rw [pushAt_getD_ne _ _ _ _ h4, pushAt_getD_ne _ _ _ _ h3] at hq
          exact ihs p q hq
      · intro p hp
        rw [List.range_succ, List.countP_append]
        have hsingle : List.countP (fun i =>
            decide ((((edgeAt g i).u = p) ∨ ((edgeAt g i).v = p)) ∧
              s.edgeState.getD i 0 = 1)) [n]
            = if ((edgeAt g n).u = p ∨ (edgeAt g n).v = p) then 1 else 0 := by
          simp only [List.countP_cons, List.countP_nil]
          by_cases hc : ((edgeAt g n).u = p ∨ (edgeAt g n).v = p)
          · rw [if_pos hc]
            simp [hc]
            rw [← List.getD_eq_getElem?_getD]
            exact hon
          · rw [if_neg hc]
            simp [hc]
        rw [hsingle]
        by_cases h3 : (edgeAt g n).u = p <;> by_cases h4 : (edgeAt g n).v = p
        · exact absurd (h3.trans h4.symm) huv
        · subst h3
          rw [pushAt_getD_ne _ _ _ _ h4]
          rw [pushAt_getD_self _ _ _ (by omega)]
          rw [List.length_append, ihd _ hp]
          simp [h4]
        · subst h4
          rw [pushAt_getD_self _ _ _ (by rw [pushAt_length]; omega)]
          rw [List.length_append, pushAt_getD_ne _ _ _ _ huv, ihd _ hp]
          simp [h3]
        · rw [pushAt_getD_ne _ _ _ _ h4, pushAt_getD_ne _ _ _ _ h3, ihd _ hp]
          simp [h3, h4]
      · show (if (partialAdj g s n).2 = -1 then ((edgeAt g n).u : Int)
            else (partialAdj g s n).2) = -1 ∨ _
        by_cases hst : (partialAdj g s n).2 = -1
        · rw [if_pos hst]
          exact Or.inr ⟨n, by omega, hon, rfl⟩
        · rw [if_neg hst]
          rcases ihst with hh | ⟨i, hi, hion, hieq⟩
          · exact absurd hh hst
          · exact Or.inr ⟨i, by omega, hion, hieq⟩
    · have hstep2 : partialAdj g s (n + 1) = partialAdj g s n := by
        rw [hstep]
        unfold adjStep
        rw [if_neg hon]
      rw [hstep2]
      refine ⟨ihl, ihs, ?_, ?_⟩
      · intro p hp
        rw [List.range_succ, List.countP_append, ihd _ hp]
        have hnone : List.countP (fun i =>
            decide ((((edgeAt g i).u = p) ∨ ((edgeAt g i).v = p)) ∧
              s.edgeState.getD i 0 = 1)) [n] = 0 := by
          rw [List.countP_eq_zero]
          intro a ha
          rw [List.mem_singleton] at ha
          subst ha
          simp only [decide_eq_true_eq]
          exact fun hcontra => hon hcontra.2
        rw [hnone]
        omega
      · rcases ihst with hh | ⟨i, hi, hion, hieq⟩
        · exact Or.inl hh
        · exact Or.inr ⟨i, by omega, hion, hieq⟩

theorem dfsScan_sound (P : Nat → Prop) :
    ∀ (l stack : List Nat) (vis : List Bool) (cnt : Nat),
      (∀ x ∈ l, P x) → (∀ x ∈ stack, P x) →
      (∀ x, vis.getD x false = true → P x) →
      (∀ x ∈ (dfsScan l stack vis cnt).1, P x) ∧
      (∀ x, (dfsScan l stack vis cnt).2.1.getD x false = true → P x) := by
  intro l
  induction l with
  | nil =>
    intro stack vis cnt _ hstack hvis
    exact ⟨hstack, hvis⟩
  | cons w rest ih =>
    intro stack vis cnt hl hstack hvis
    unfold dfsScan
    by_cases hw : vis.getD w false = true
    · rw [if_pos hw]
      exact ih stack vis (cnt + 1) (fun x hx => hl x (List.mem_cons_of_mem _ hx))
        hstack hvis
    · rw [if_neg hw]
      refine ih (w :: stack) (vis.set w true) (cnt + 1)
        (fun x hx => hl x (List.mem_cons_of_mem _ hx)) ?_ ?_
      · intro x hx
        rw [List.mem_cons] at hx
        rcases hx with hx | hx
        · subst hx
          exact hl x (List.mem_cons_self _ _)
        · exact hstack x hx
      · intro x hx
        by_cases hxw : x = w
        · subst hxw
          exact hl x (List.mem_cons_self _ _)
        · rw [getD_set_ne _ _ _ _ _ (fun hh => hxw hh.symm)] at hx
          exact hvis x hx

theorem dfsLoop_sound (adj : List (List Nat)) (P : Nat → Prop)
    (hstep : ∀ p q, P p → q ∈ adj.getD p [] → P q) :
    ∀ (fuel : Nat) (stack : List Nat) (vis : List Bool) (cnt : Nat),
      (∀ x ∈ stack, P x) → (∀ x, vis.getD x false = true → P x) →
      ∀ x, (dfsLoop adj fuel stack vis cnt).1.getD x false = true → P x := by
  intro fuel
  induction fuel with
  | zero =>
    intro stack vis cnt _ hvis x hx
    exact hvis x hx
  | succ n ih =>
    intro stack vis cnt hstack hvis x hx
    rcases stack with _ | ⟨v, stack⟩
    · exact hvis x hx
    · unfold dfsLoop at hx
      have hv : P v := hstack v (List.mem_cons_self _ _)
      have hscan := dfsScan_sound P (adj.getD v []) stack vis cnt
        (fun q hq => hstep v q hv hq)
        (fun y hy => hstack y (List.mem_cons_of_mem _ hy)) hvis
      exact ih _ _ _ hscan.1 hscan.2 x hx

theorem walkLoop_sound (g : Grid) (adj : List (List Nat)) (start : Nat)
    (R : Nat → Nat → Prop) (hadj : ∀ p q, q ∈ adj.getD p [] → R p q) :
    ∀ (fuel : Nat) (cur : Nat) (prev : Int) (acc ids : List Nat),
      walkLoop g adj start fuel cur prev acc = some ids →
      List.Chain' R (acc ++ [cur]) →
      ids ≠ [] ∧ ids.head? = (acc ++ [cur]).head? ∧
        ids.getLast? = some start ∧ List.Chain' R ids := by
  intro fuel
  induction fuel with
  | zero =>
    intro cur prev acc ids h
    unfold walkLoop at h
    cases h
  | succ n ih =>
    intro cur prev acc ids h hchain
    unfold walkLoop at h
    rcases hcur : adj.getD cur [] with _ | ⟨a, rest1⟩
    · rw [hcur] at h
      cases h
    rcases rest1 with _ | ⟨b, rest2⟩
    · rw [hcur] at h
      cases h
    rw [hcur] at h
    simp only [] at h
    have hnext_mem : (if (a : Int) ≠ prev then a else b) ∈ adj.getD cur [] := by
      rw [hcur]
      by_cases hcase : (a : Int) ≠ prev
      · rw [if_pos hcase]
        exact List.mem_cons_self _ _
      · rw [if_neg hcase]
        exact List.mem_cons_of_mem _ (List.mem_cons_self _ _)
    have hR : R cur (if (a : Int) ≠ prev then a else b) := hadj _ _ hnext_mem
    by_cases hstop : (if (a : Int) ≠ prev then a else b) = start
    · rw [if_pos hstop] at h
      cases h
      have hchain2 : List.Chain' R ((acc ++ [cur]) ++ [start]) := by
        rw [List.chain'_append]
        refine ⟨hchain, List.chain'_singleton _, ?_⟩
        intro x hx y hy
        rw [List.getLast?_concat] at hx
        rw [List.head?_cons] at hy
        cases hx
        cases hy
        rw [← hstop]
        exact hR
      refine ⟨by simp, ?_, ?_, hchain2⟩
      · rw [List.head?_append_of_ne_nil]
        simp
      · rw [List.getLast?_concat]
    · rw [if_neg hstop] at h
      have hchain2 : List.Chain' R ((acc ++ [cur]) ++ [(if (a : Int) ≠ prev then a else b)]) := by
        rw [List.chain'_append]
        refine ⟨hchain, List.chain'_singleton _, ?_⟩
        intro x hx y hy
        rw [List.getLast?_concat] at hx
        rw [List.head?_cons] at hy
        cases hx
        cases hy
        exact hR
      obtain ⟨hne, hhead, hlast, hch⟩ := ih _ _ _ _ h hchain2
      refine ⟨hne, ?_, hlast, hch⟩
      rw [hhead, List.head?_append_of_ne_nil]
      simp

theorem onAdjRel_symm (g : Grid) (es : List Int) :
    ∀ p q, OnAdjRel g es p q → OnAdjRel g es q p := by
  rintro p q ⟨i, hi, hon, hcase⟩
  exact ⟨i, hi, hon, hcase.symm⟩

theorem onReach_symm (g : Grid) (es : List Int) {p q : Nat}
    (h : OnReach g es p q) : OnReach g es q p := by
  have hsym : Symmetric (OnAdjRel g es) := fun x y hxy => onAdjRel_symm g es x y hxy
  exact Relation.ReflTransGen.symmetric hsym h

theorem vis_init_sound (n j x : Nat)
    (hx : ((List.replicate n false).set j true).getD x false = true) : x = j := by
  by_cases hxj : x = j
  · exact hxj
  · rw [getD_set_ne _ _ _ _ _ (fun hh => hxj hh.symm)] at hx
    by_cases hxn : x < n
    · rw [getD_replicate _ _ _ _ hxn] at hx
      cases hx
    · rw [List.getD_eq_default] at hx
      · cases hx
      · simp [List.length_replicate]
        omega

theorem validate_sound (g : Grid) (s : State) (sol : Solution)
    (hg : GridWF g) (hok : CounterOk g s) (h : validate g s = some sol) :
    ValidSolution g sol := by
  obtain ⟨⟨hlE, hlD, hlU, hlC, hlW⟩, hpd, hpu, hcc, hcu⟩ := hok
  obtain ⟨hadjlen, hadjsound, hadjdeg, hstart⟩ := partialAdj_spec g s (numEdges g) (le_refl _)
  unfold validate at h
  by_cases h1 : ((clueCells g).all
      (fun cell => decide (s.cellEdgeCount.getD cell 0 = clueAt g cell))) = true
  case neg =>
    have hX : ((clueCells g).all
        (fun cell => decide (s.cellEdgeCount.getD cell 0 = clueAt g cell))) = false := by
      revert h1
      cases ((clueCells g).all
        (fun cell => decide (s.cellEdgeCount.getD cell 0 = clueAt g cell))) <;> simp
    rw [if_pos (by rw [hX]; rfl)] at h
    cases h
  rw [if_neg (by rw [h1]; simp)] at h
  simp only [] at h
  have hadjlen2 : (buildAdj g s).1.length = numPoints g := hadjlen
  have hadjsound2 : ∀ p q, q ∈ (buildAdj g s).1.getD p [] →
      OnAdjRel g s.edgeState p q := hadjsound
  have hadjdeg2 : ∀ p, p < numPoints g → ((buildAdj g s).1.getD p []).length
      = onDegOf g s.edgeState p := fun p hp => hadjdeg p hp
  have hstart2 : (buildAdj g s).2 = -1 ∨ ∃ i, i < numEdges g ∧
      s.edgeState.getD i 0 = 1 ∧ (buildAdj g s).2 = ((edgeAt g i).u : Int) := hstart
  by_cases h2 : (buildAdj g s).2 = -1
  · rw [if_pos h2] at h
    cases h
  rw [if_neg h2] at h
  by_cases h3 : ((List.range (numPoints g)).all fun v =>
      decide (((buildAdj g s).1.getD v []).length = 0 ∨
        ((buildAdj g s).1.getD v []).length = 2)) = true
  case neg =>
    have hX : ((List.range (numPoints g)).all fun v =>
        decide (((buildAdj g s).1.getD v []).length = 0 ∨
          ((buildAdj g s).1.getD v []).length = 2)) = false := by
      revert h3
      cases ((List.range (numPoints g)).all fun v =>
        decide (((buildAdj g s).1.getD v []).length = 0 ∨
          ((buildAdj g s).1.getD v []).length = 2)) <;> simp
    rw [if_pos (by rw [hX]; rfl)] at h
    cases h
  rw [if_neg (by rw [h3]; simp)] at h
  by_cases h4 : List.foldl (fun acc v => acc + ((buildAdj g s).1.getD v []).length) 0
      (List.range (numPoints g)) / 2 = 0
  · rw [if_pos h4] at h
    cases h
  rw [if_neg h4] at h
  by_cases h5 : ((List.range (numPoints g)).all fun v =>
      decide (((buildAdj g s).1.getD v []).length ≠ 2 ∨
        (dfsLoop (buildAdj g s).1 (numPoints g + 1) [(buildAdj g s).2.toNat]
          ((List.replicate (numPoints g) false).set (buildAdj g s).2.toNat true) 0).1.getD
            v false = true)) = true
  case neg =>
    have hX : ((List.range (numPoints g)).all fun v =>
        decide (((buildAdj g s).1.getD v []).length ≠ 2 ∨
          (dfsLoop (buildAdj g s).1 (numPoints g + 1) [(buildAdj g s).2.toNat]
            ((List.replicate (numPoints g) false).set (buildAdj g s).2.toNat true) 0).1.getD
              v false = true)) = false := by
      revert h5
      cases ((List.range (numPoints g)).all fun v =>
        decide (((buildAdj g s).1.getD v []).length ≠ 2 ∨
          (dfsLoop (buildAdj g s).1 (numPoints g + 1) [(buildAdj g s).2.toNat]
            ((List.replicate (numPoints g) false).set (buildAdj g s).2.toNat true) 0).1.getD
              v false = true)) <;> simp
    rw [if_pos (by rw [hX]; rfl)] at h
    cases h
  rw [if_neg (by rw [h5]; simp)] at h
  by_cases h6 : (dfsLoop (buildAdj g s).1 (numPoints g + 1) [(buildAdj g s).2.toNat]
      ((List.replicate (numPoints g) false).set (buildAdj g s).2.toNat true) 0).2 / 2 ≠
      List.foldl (fun acc v => acc + ((buildAdj g s).1.getD v []).length) 0
        (List.range (numPoints g)) / 2
  · rw [if_pos h6] at h
    cases h
  rw [if_neg h6] at h
  rcases hw : walkLoop g (buildAdj g s).1 (buildAdj g s).2.toNat (numEdges g + 2)
      (buildAdj g s).2.toNat (-1) [] with _ | ids
  · rw [hw] at h
    simp only [] at h
    cases h
  · rw [hw] at h
    simp only [] at h
    cases h
    constructor
    · refine ⟨?_, ?_, ?_, ?_⟩
      · intro c hc hclue
        have hmem : c ∈ clueCells g := by
          unfold clueCells
          rw [List.mem_filter]
          exact ⟨List.mem_range.mpr hc, decide_eq_true hclue⟩
        have hcell := List.all_eq_true.mp h1 c hmem
        rw [decide_eq_true_eq] at hcell
        rw [hcc c hc] at hcell
        exact hcell
      · intro p hp
        have hdeg := List.all_eq_true.mp h3 p (List.mem_range.mpr hp)
        rw [decide_eq_true_eq] at hdeg
        rw [hadjdeg2 p hp] at hdeg
        exact hdeg
      · rcases hstart2 with hh | ⟨i, hi, hion, _⟩
        · exact absurd hh h2
        · exact ⟨i, hi, hion⟩
      · intro p q hp hq hdp hdq
        have hreach : ∀ x, (dfsLoop (buildAdj g s).1 (numPoints g + 1)
            [(buildAdj g s).2.toNat]
            ((List.replicate (numPoints g) false).set (buildAdj g s).2.toNat true) 0).1.getD
              x false = true →
            OnReach g s.edgeState (buildAdj g s).2.toNat x := by
          apply dfsLoop_sound (buildAdj g s).1
            (OnReach g s.edgeState (buildAdj g s).2.toNat)
          · intro a b ha hb
            exact Relation.ReflTransGen.tail ha (hadjsound2 a b hb)
          · intro x hx
            rw [List.mem_singleton] at hx
            subst hx
            exact Relation.ReflTransGen.refl
          · intro x hx
            have hxj := vis_init_sound (numPoints g) (buildAdj g s).2.toNat x hx
            subst hxj
            exact Relation.ReflTransGen.refl
        have hvisdeg : ∀ x, x < numPoints g → onDegOf g s.edgeState x = 2 →
            OnReach g s.edgeState (buildAdj g s).2.toNat x := by
          intro x hx hdx
          have hall := List.all_eq_true.mp h5 x (List.mem_range.mpr hx)
          rw [decide_eq_true_eq] at hall
          rcases hall with hne | hvis
          · rw [hadjdeg2 x hx] at hne
            exact absurd hdx hne
          · exact hreach x hvis
        exact Relation.ReflTransGen.trans
          (onReach_symm g s.edgeState (hvisdeg p hp hdp)) (hvisdeg q hq hdq)
    · have hwalk := walkLoop_sound g (buildAdj g s).1 (buildAdj g s).2.toNat
        (OnAdjRel g s.edgeState) (fun p q hq => hadjsound2 p q hq)
        (numEdges g + 2) (buildAdj g s).2.toNat (-1) [] ids hw
        (by simp)
      obtain ⟨hne, hhead, hlast, hch⟩ := hwalk
      refine ⟨ids, hne, rfl, ?_, hch⟩
      rw [hhead, hlast]
      simp

theorem selectNextEdgeAux_bound (g : Grid) (s : State) :
    ∀ (l : List Nat) (b m sc : Int), (∀ i ∈ l, i < numEdges g) →
      (b = -1 ∨ (0 ≤ b ∧ b.toNat < numEdges g)) →
      (selectNextEdgeAux g s l b m sc = -1 ∨
        (0 ≤ selectNextEdgeAux g s l b m sc ∧
          (selectNextEdgeAux g s l b m sc).toNat < numEdges g)) := by
  intro l
  induction l with
  | nil =>
    intro b m sc _ hb
    exact hb
  | cons i rest ih =>
    intro b m sc hl hb
    unfold selectNextEdgeAux
    have hiE : i < numEdges g := hl i (List.mem_cons_self _ _)
    by_cases h0 : s.edgeState.getD i 0 ≠ 0
    · rw [if_pos h0]
      exact ih b m sc (fun j hj => hl j (List.mem_cons_of_mem _ hj)) hb
    rw [if_neg h0]
    by_cases hbr : estimateBranches g s i = 1
    · rw [if_pos hbr]
      right
      constructor
      · exact Int.natCast_nonneg i
      · rw [Int.toNat_natCast]
        exact hiE
    rw [if_neg hbr]
    by_cases hcmp : estimateBranches g s i < m ∨
        (estimateBranches g s i = m ∧ sc <
          ((if s.pointDegree.getD (edgeAt g i).u 0 = 1 ∨
              s.pointDegree.getD (edgeAt g i).v 0 = 1 then (10000 : Int) else 0) +
           (if (s.pointDegree.getD (edgeAt g i).u 0 = 0 ∧
                s.pointUndecided.getD (edgeAt g i).u 0 = 2) ∨
               (s.pointDegree.getD (edgeAt g i).v 0 = 0 ∧
                s.pointUndecided.getD (edgeAt g i).v 0 = 2) then (5000 : Int) else 0) +
           scoreCell g s (edgeAt g i).cellA + scoreCell g s (edgeAt g i).cellB))
    · rw [if_pos hcmp]
      refine ih _ _ _ (fun j hj => hl j (List.mem_cons_of_mem _ hj)) ?_
      right
      refine ⟨Int.natCast_nonneg i, ?_⟩
      rw [Int.toNat_natCast]
      exact hiE
    · rw [if_neg hcmp]
      exact ih b m sc (fun j hj => hl j (List.mem_cons_of_mem _ hj)) hb

theorem selectNextEdge_lt (g : Grid) (s : State)
    (hne : selectNextEdge g s ≠ numEdges g) : selectNextEdge g s < numEdges g := by
  have hb := selectNextEdgeAux_bound g s (List.range (numEdges g)) (-1) 3 (-1000)
    (fun i hi => List.mem_range.mp hi) (Or.inl rfl)
  unfold selectNextEdge at hne ⊢
  rcases hb with hb | ⟨hb1, hb2⟩
  · rw [hb] at hne ⊢
    exact absurd (by rfl) hne
  · rw [if_pos hb1]
    exact hb2

theorem finalCheckAndStore_sound (g : Grid) (fa : Bool) (s : State)
    (acc : SearchAcc) (hg : GridWF g) (hok : CounterOk g s)
    (hacc : ∀ sol ∈ acc.solutions, ValidSolution g sol) :
    ∀ sol ∈ (finalCheckAndStore g fa s acc).solutions, ValidSolution g sol := by
  unfold finalCheckAndStore
  rcases hv : validate g s with _ | sol0
  · exact hacc
  · simp only []
    by_cases hcan : isCanonicalSolution g fa sol0 = true
    · rw [if_neg (by rw [hcan]; simp)]
      intro sol hsol
      rw [List.mem_append] at hsol
      rcases hsol with hsol | hsol
      · exact hacc sol hsol
      · rw [List.mem_singleton] at hsol
        subst hsol
        exact validate_sound g s sol hg hok hv
    · have hX : isCanonicalSolution g fa sol0 = false := by
        revert hcan
        cases isCanonicalSolution g fa sol0 <;> simp
      rw [if_pos (by rw [hX]; rfl)]
      exact hacc

theorem searchGo_sound (g : Grid) (fa : Bool) (pf : Nat) (hg : GridWF g) :
    ∀ (fuel : Nat) (s : State) (acc : SearchAcc), CounterOk g s →
      (∀ sol ∈ acc.solutions, ValidSolution g sol) →
      ∀ sol ∈ (searchGo g fa pf fuel s acc).solutions, ValidSolution g sol := by
  intro fuel
  induction fuel with
  | zero =>
    intro s acc _ hacc
    exact hacc
  | succ n ih =>
    intro s acc hok hacc sol hsol
    unfold searchGo at hsol
    by_cases hstop : ((!fa) = true ∧ acc.stop = true)
    · rw [if_pos hstop] at hsol
      exact hacc sol hsol
    rw [if_neg hstop] at hsol
    by_cases hdu : isDefinitelyUnsolvable g s = true
    · rw [if_pos hdu] at hsol
      exact hacc sol hsol
    rw [if_neg hdu] at hsol
    by_cases hqv : quickValidityCheck g s = true
    case neg =>
      have hX : quickValidityCheck g s = false := by
        revert hqv
        cases quickValidityCheck g s <;> simp
      rw [if_pos (by rw [hX]; rfl)] at hsol
      exact hacc sol hsol
    rw [if_neg (by rw [hqv]; simp)] at hsol
    rcases hp : propagateConstraints g pf s with _ | s1
    · rw [hp] at hsol
      simp only [] at hsol
      exact hacc sol hsol
    rw [hp] at hsol
    simp only [] at hsol
    have hok1 : CounterOk g s1 := counterOk_propagate g hg pf s s1 hok hp
    by_cases hdone : selectNextEdge g s1 = numEdges g
    · rw [if_pos hdone] at hsol
      exact finalCheckAndStore_sound g fa s1 acc hg hok1 hacc sol hsol
    rw [if_neg hdone] at hsol
    have heIdx : selectNextEdge g s1 < numEdges g := selectNextEdge_lt g s1 hdone
    have hchild : ∀ (v : Int) (s2 : State), (v = 1 ∨ v = -1) →
        (if (applyDecision g s1 (selectNextEdge g s1) v).1 = true ∧
            quickValidityCheck g (applyDecision g s1 (selectNextEdge g s1) v).2 = true then
          propagateConstraints g pf (applyDecision g s1 (selectNextEdge g s1) v).2
        else none) = some s2 → CounterOk g s2 := by
      intro v s2 hv hs2
      by_cases hcnd : (applyDecision g s1 (selectNextEdge g s1) v).1 = true ∧
          quickValidityCheck g (applyDecision g s1 (selectNextEdge g s1) v).2 = true
      · rw [if_pos hcnd] at hs2
        exact counterOk_propagate g hg pf _ s2
          (counterOk_applyDecision g s1 (selectNextEdge g s1) v hg heIdx hok1 hv hcnd.1)
          hs2
      · rw [if_neg hcnd] at hs2
        cases hs2
    split at hsol
    · exact hacc sol hsol
    · rename_i onS hoff hon
      have hokon : CounterOk g onS := by
        split at hon
        · exact hchild 1 onS (Or.inl rfl) hon
        · exact Option.noConfusion hon
      exact ih onS acc hokon hacc sol hsol
    · rename_i offS hoff hon
      have hokoff : CounterOk g offS := by
        split at hoff
        · exact hchild (-1) offS (Or.inr rfl) hoff
        · exact Option.noConfusion hoff
      exact ih offS acc hokoff hacc sol hsol
    · rename_i offS onS hoff hon
      have hokoff : CounterOk g offS := by
        split at hoff
        · exact hchild (-1) offS (Or.inr rfl) hoff
        · exact Option.noConfusion hoff
      have hokon : CounterOk g onS := by
        split at hon
        · exact hchild 1 onS (Or.inl rfl) hon
        · exact Option.noConfusion hon
      have hmid : ∀ sol2 ∈ (searchGo g fa pf n offS acc).solutions, ValidSolution g sol2 :=
        ih offS acc hokoff hacc
      split at hsol
      · exact hmid sol hsol
      · exact ih onS (searchGo g fa pf n offS acc) hokon hmid sol hsol

/-! ### Claim theorems on concrete grids -/

/-- Claim C2 (code bug): on the 1×2 grid with clues 3 and 0, the
propagator succeeds, but the resulting state still has a firable cell
rule — the clued cell 0 has `on_count + undecided = clue` with
undecided edges left — and running the propagator a second time on that
state changes it.  The 0-cell's rule forces its four edges OFF without
re-enqueueing the neighbouring clued cell (the OFF branches of
`propagateConstraints` enqueue no cells, and the vertex `deg == 2` OFF
branch is made unreachable by the `deg >= 2` continue), so the
fixed-point contract of §4.3 fails. -/
theorem claim2_code_bug :
    ∃ s1, propagateConstraints g12c 200 (initialState g12c) = some s1 ∧
      s1.cellEdgeCount.getD 0 0 + s1.cellUndecided.getD 0 0 = clueAt g12c 0 ∧
      0 < s1.cellUndecided.getD 0 0 ∧
      propagateConstraints g12c 200 s1 ≠ some s1 := by
  refine ⟨_, rfl, by decide, by decide, by decide⟩

/-- Claim C3 (code bug): on the 2×2 grid with clues 3, 0, 0, the
initial state passes the search's two cheap pre-filters, the propagator
succeeds, and the state it hands to the heuristic violates invariant 3
of §3: cell 0 has `cell_on_count + cell_undecided < clue` (0 + 2 < 3).
The two clue-0 cells forced two of cell 0's edges OFF after cell 0 had
already been dequeued, and the OFF branches never re-enqueue cells. -/
theorem claim3_code_bug :
    isDefinitelyUnsolvable g22c (initialState g22c) = false ∧
    quickValidityCheck g22c (initialState g22c) = true ∧
    ∃ s1, propagateConstraints g22c 300 (initialState g22c) = some s1 ∧
      s1.cellEdgeCount.getD 0 0 + s1.cellUndecided.getD 0 0 < clueAt g22c 0 := by
  refine ⟨by decide, by decide, _, rfl, by decide⟩

/-- Claim C6 counterexample: `g33bad` contains a cell with clue 0
(cell 4) whose edge-adjacent neighbour cells (1, 3, 5, 7) all have
clue 3, yet a single propagator run on the initial state reports a
contradiction instead of turning the 0-cell's four edges OFF — the
additional clue-0 cell 0 makes cell 1 force its bottom edge ON into the
centre cell.  The claim's universal statement over grids containing the
pattern is therefore false. -/
theorem claim6_counterexample :
    clueAt g33bad 4 = 0 ∧
    clueAt g33bad 1 = 3 ∧ clueAt g33bad 3 = 3 ∧
    clueAt g33bad 5 = 3 ∧ clueAt g33bad 7 = 3 ∧
    propagateConstraints g33bad 500 (initialState g33bad) = none := by decide

/-- Claim C6 amended: on the 3×3 grid whose only clues are the 0 at the
centre (cell 4) and 3 on its four edge-adjacent neighbours, a single
propagator run on the initial state succeeds, turns all four edges of
the 0-cell OFF, and turns every edge of the four 3-cells that is not
shared with the 0-cell ON. -/
theorem claim6_amended :
    ∃ s, propagateConstraints g33iso 500 (initialState g33iso) = some s ∧
      (∀ i ∈ (buildTables g33iso).cellEdges.getD 4 [], s.edgeState.getD i 0 = -1) ∧
      (∀ c ∈ [1, 3, 5, 7], ∀ i ∈ (buildTables g33iso).cellEdges.getD c [],
        i ∉ (buildTables g33iso).cellEdges.getD 4 [] → s.edgeState.getD i 0 = 1) := by
  refine ⟨_, rfl, by decide, by decide⟩

/-- Claim C8: on the 1×1 clueless grid the find-all search records
exactly one solution, whose edge assignment has all four edges ON and
whose cycle-point list is the four lattice corners followed by the
starting corner again — length 5. -/
theorem claim8_one_by_one :
    solverRun g11 true 32 200 =
      [{ edgeState := [1, 1, 1, 1]
         cyclePoints := [(0, 0), (0, 1), (1, 1), (1, 0), (0, 0)] }] ∧
    (solverRun g11 true 32 200).map (fun sol => sol.cyclePoints.length) = [5] := by
  constructor <;> decide

/-- Claim C7 counterexample: two conjuncts of the claimed
`applyDecision` contract fail on concrete inputs.  First, on `s7`
(1×2 grid, right cell clued 2, edges 0 and 5 ON) deciding edge 1 ON
fails at the endpoint-degree check and the adjacent clued cell's
ON-count is left unchanged even though the edge decision was written —
so the claimed unconditional update of "adjacent cell ON-counts when
value is ON" is false.  Second, on `s7b` (left cell clued 1 with
ON-count already pushed to 2 by a failed call) deciding edge 4 OFF
returns `true` although the adjacent clued cell ends with ON-count
exceeding its clue — so the claimed unconditional "returns true iff"
equivalence is false. -/
theorem claim7_counterexample :
    ((applyDecision g7 s7 1 1).1 = false ∧
      (applyDecision g7 s7 1 1).2.edgeState.getD 1 0 = 1 ∧
      (edgeAt g7 1).cellB = 1 ∧ 0 ≤ clueAt g7 1 ∧
      (applyDecision g7 s7 1 1).2.cellEdgeCount.getD 1 0 =
        s7.cellEdgeCount.getD 1 0) ∧
    ((applyDecision g7b s7b 4 (-1)).1 = true ∧
      (edgeAt g7b 4).cellB = 0 ∧ 0 ≤ clueAt g7b 0 ∧
      clueAt g7b 0 < (applyDecision g7b s7b 4 (-1)).2.cellEdgeCount.getD 0 0) := by
  decide

/-- Claim C9 counterexample: on `s9` (2×1 grid, shared endpoint of
edges 1 and 3 at degree 2) deciding edge 5 ON returns `false` with the
edge decision written and the undecided and degree counters updated,
but the ON-count counter of the adjacent cell 1 is NOT updated — the
claim's "the undecided/degree/ON-count counters already updated" is too
strong on the endpoint-degree failure path. -/
theorem claim9_counterexample :
    (applyDecision g9 s9 5 1).1 = false ∧
    (applyDecision g9 s9 5 1).2.edgeState.getD 5 0 = 1 ∧
    (edgeAt g9 5).cellB = 1 ∧
    (applyDecision g9 s9 5 1).2.cellEdgeCount.getD 1 0 =
      s9.cellEdgeCount.getD 1 0 := by
  decide

/-- Claim C10: in find-first mode (`findAll = false`) the symmetry
filter `isCanonicalSolution` returns `true` for every solution, and
`finalCheckAndStore` records every assignment the validator accepts
(appending it to the solution list and raising the stop flag). -/
theorem claim10_find_first_records_all (g : Grid) (s : State)
    (acc : SearchAcc) (sol : Solution) (h : validate g s = some sol) :
    isCanonicalSolution g false sol = true ∧
    finalCheckAndStore g false s acc =
      { solutions := acc.solutions ++ [sol], stop := true } := by
  constructor
  · rfl
  · simp [finalCheckAndStore, h, isCanonicalSolution]

/-- Witness for `claim10_find_first_records_all` at the 1×1 grid's
all-ON state. -/
theorem claim10_witness :
    isCanonicalSolution g11 false sol11 = true ∧
    finalCheckAndStore g11 false s11 { solutions := [], stop := false } =
      { solutions := ([] : List Solution) ++ [sol11], stop := true } :=
  claim10_find_first_records_all g11 s11 { solutions := [], stop := false }
    sol11 (by decide)

/-- Claim C4: every solution the solver records, in either mode and for
any fuel, satisfies the validity conditions (a)-(c) and carries a
cycle-point list that traverses a closed ON-edge walk: the chain from
`counterOk_initialState` through `searchGo_sound` shows the validator
only ever accepts states whose assignment is a single simple cycle. -/
theorem claim4_solver_sound (g : Grid) (findAll : Bool) (fuel pfuel : Nat)
    (hg : GridWF g) :
    ∀ sol ∈ solverRun g findAll fuel pfuel, ValidSolution g sol := by
  intro sol hsol
  exact searchGo_sound g findAll pfuel hg fuel (initialState g)
    { solutions := [], stop := false } (counterOk_initialState g)
    (fun _ h => absurd h (List.not_mem_nil _)) sol hsol

/-- Witness for `claim4_solver_sound` at the 1x1 clueless grid: the
all-ON solution it records is valid. -/
theorem claim4_witness : GridWF g11 ∧ ValidSolution g11 sol11 :=
  ⟨rfl, claim4_solver_sound g11 true 32 300 rfl sol11 (by decide)⟩

/-- Claim C7 amended: the `applyDecision` contract with the source's
short-circuit order made explicit.  Same-value calls are successful
no-ops; calls against a decided opposite value fail without touching
the state; OFF on an undecided edge always succeeds, decrementing the
endpoint and cell undecided counters and leaving degrees and ON-counts
alone; ON on an undecided edge succeeds if and only if both endpoint
degrees stay at most 2 and each clued adjacent cell's ON-count stays at
most its clue, and on success all six counters are updated. -/
theorem claim7_amended (g : Grid) (s : State) (e : Nat) (val : Int)
    (hg : GridWF g) (hsz : SizedState g s) (he : e < numEdges g) :
    (s.edgeState.getD e 0 = val → applyDecision g s e val = (true, s)) ∧
    (s.edgeState.getD e 0 ≠ val → s.edgeState.getD e 0 ≠ 0 →
      applyDecision g s e val = (false, s)) ∧
    (s.edgeState.getD e 0 = 0 →
      applyDecision g s e (-1) =
        (true,
         { edgeState := s.edgeState.set e (-1)
           pointDegree := s.pointDegree
           pointUndecided := decAt (decAt s.pointUndecided (edgeAt g e).u) (edgeAt g e).v
           cellEdgeCount := s.cellEdgeCount
           cellUndecided := decCell (decCell s.cellUndecided (edgeAt g e).cellA)
             (edgeAt g e).cellB })) ∧
    (s.edgeState.getD e 0 = 0 →
      ((applyDecision g s e 1).1 = true ↔
        (s.pointDegree.getD (edgeAt g e).u 0 + 1 ≤ 2 ∧
         s.pointDegree.getD (edgeAt g e).v 0 + 1 ≤ 2 ∧
         (0 ≤ (edgeAt g e).cellA → 0 ≤ clueAt g (edgeAt g e).cellA.toNat →
           s.cellEdgeCount.getD (edgeAt g e).cellA.toNat 0 + 1 ≤
             clueAt g (edgeAt g e).cellA.toNat) ∧
         (0 ≤ (edgeAt g e).cellB → 0 ≤ clueAt g (edgeAt g e).cellB.toNat →
           s.cellEdgeCount.getD (edgeAt g e).cellB.toNat 0 + 1 ≤
             clueAt g (edgeAt g e).cellB.toNat)))) ∧
    (s.edgeState.getD e 0 = 0 → (applyDecision g s e 1).1 = true →
      (applyDecision g s e 1).2 =
        { edgeState := s.edgeState.set e 1
          pointDegree := incAt (incAt s.pointDegree (edgeAt g e).u) (edgeAt g e).v
          pointUndecided := decAt (decAt s.pointUndecided (edgeAt g e).u) (edgeAt g e).v
          cellEdgeCount := incCell (incCell s.cellEdgeCount (edgeAt g e).cellA)
            (edgeAt g e).cellB
          cellUndecided := decCell (decCell s.cellUndecided (edgeAt g e).cellA)
            (edgeAt g e).cellB }) := by
  refine ⟨fun h => applyDecision_noop g s e val h,
    fun h1 h2 => applyDecision_conflict g s e val h1 h2,
    fun h0 => applyDecision_off_eq g s e h0, ?_, ?_⟩
  · intro h0
    rw [applyDecision_on_char g s e he hg hsz h0]
    simp only []
    split_ifs with hA hB hC
    · refine iff_of_false not_false ?_
      rintro ⟨h1, h2, _, _⟩
      rcases hA with hA | hA <;> omega
    · refine iff_of_false not_false ?_
      rintro ⟨_, _, h3, _⟩
      obtain ⟨b1, b2, b3⟩ := hB
      have := h3 b1 b2
      omega
    · refine iff_of_false not_false ?_
      rintro ⟨_, _, _, h4⟩
      obtain ⟨c1, c2, c3⟩ := hC
      have := h4 c1 c2
      omega
    · refine iff_of_true rfl ⟨?_, ?_, ?_, ?_⟩
      · omega
      · omega
      · intro ha1 ha2
        by_contra hlt
        exact hB ⟨ha1, ha2, by omega⟩
      · intro hb1 hb2
        by_contra hlt
        exact hC ⟨hb1, hb2, by omega⟩
  · intro h0 htrue
    rw [applyDecision_on_char g s e he hg hsz h0] at htrue ⊢
    simp only [] at htrue ⊢
    split_ifs at htrue with hA hB hC
    rw [if_neg hA, if_neg hB]

/-- Witness for `claim7_amended`: deciding edge 0 ON from the 1x1
initial state performs the full successful update. -/
theorem claim7_witness :
    (applyDecision g11 (initialState g11) 0 1).2 =
      { edgeState := (initialState g11).edgeState.set 0 1
        pointDegree := incAt (incAt (initialState g11).pointDegree (edgeAt g11 0).u)
          (edgeAt g11 0).v
        pointUndecided := decAt (decAt (initialState g11).pointUndecided (edgeAt g11 0).u)
          (edgeAt g11 0).v
        cellEdgeCount := incCell (incCell (initialState g11).cellEdgeCount
          (edgeAt g11 0).cellA) (edgeAt g11 0).cellB
        cellUndecided := decCell (decCell (initialState g11).cellUndecided
          (edgeAt g11 0).cellA) (edgeAt g11 0).cellB } :=
  (claim7_amended g11 (initialState g11) 0 1 rfl
    ⟨by decide, by decide, by decide, by decide, by decide⟩
    (by decide)).2.2.2.2 rfl (by decide)

/-- Claim C9 amended: on the ON failure path nothing is rolled back -
the edge decision, endpoint degrees, endpoint undecided counts and cell
undecided counts are written unconditionally - but the cell ON-counts
are only partially updated: not at all when an endpoint exceeded
degree 2, and only cell A's when cell A's clue check failed. -/
theorem claim9_amended (g : Grid) (s : State) (e : Nat)
    (hg : GridWF g) (hsz : SizedState g s) (he : e < numEdges g)
    (h0 : s.edgeState.getD e 0 = 0)
    ( _hfail : (applyDecision g s e 1).1 = false) :
    (applyDecision g s e 1).2.edgeState = s.edgeState.set e 1 ∧
    (applyDecision g s e 1).2.pointDegree =
      incAt (incAt s.pointDegree (edgeAt g e).u) (edgeAt g e).v ∧
    (applyDecision g s e 1).2.pointUndecided =
      decAt (decAt s.pointUndecided (edgeAt g e).u) (edgeAt g e).v ∧
    (applyDecision g s e 1).2.cellUndecided =
      decCell (decCell s.cellUndecided (edgeAt g e).cellA) (edgeAt g e).cellB ∧
    ((2 < s.pointDegree.getD (edgeAt g e).u 0 + 1 ∨
      2 < s.pointDegree.getD (edgeAt g e).v 0 + 1) →
      (applyDecision g s e 1).2.cellEdgeCount = s.cellEdgeCount) ∧
    (¬(2 < s.pointDegree.getD (edgeAt g e).u 0 + 1 ∨
       2 < s.pointDegree.getD (edgeAt g e).v 0 + 1) →
      (0 ≤ (edgeAt g e).cellA ∧ 0 ≤ clueAt g (edgeAt g e).cellA.toNat ∧
        clueAt g (edgeAt g e).cellA.toNat <
          s.cellEdgeCount.getD (edgeAt g e).cellA.toNat 0 + 1) →
      (applyDecision g s e 1).2.cellEdgeCount =
        incCell s.cellEdgeCount (edgeAt g e).cellA) := by
  rw [applyDecision_on_char g s e he hg hsz h0]
  simp only []
  refine ⟨by trivial, by trivial, by trivial, by trivial, ?_, ?_⟩
  · intro hA
    rw [if_pos hA]
  · intro hA hB
    rw [if_neg hA, if_pos hB]

/-- Witness for `claim9_amended` at the failing decision of `s9`. -/
theorem claim9_witness :
    (applyDecision g9 s9 5 1).2.edgeState = s9.edgeState.set 5 1 ∧
    (applyDecision g9 s9 5 1).2.pointDegree =
      incAt (incAt s9.pointDegree (edgeAt g9 5).u) (edgeAt g9 5).v ∧
    (applyDecision g9 s9 5 1).2.pointUndecided =
      decAt (decAt s9.pointUndecided (edgeAt g9 5).u) (edgeAt g9 5).v ∧
    (applyDecision g9 s9 5 1).2.cellUndecided =
      decCell (decCell s9.cellUndecided (edgeAt g9 5).cellA) (edgeAt g9 5).cellB ∧
    ((2 < s9.pointDegree.getD (edgeAt g9 5).u 0 + 1 ∨
      2 < s9.pointDegree.getD (edgeAt g9 5).v 0 + 1) →
      (applyDecision g9 s9 5 1).2.cellEdgeCount = s9.cellEdgeCount) ∧
    (¬(2 < s9.pointDegree.getD (edgeAt g9 5).u 0 + 1 ∨
       2 < s9.pointDegree.getD (edgeAt g9 5).v 0 + 1) →
      (0 ≤ (edgeAt g9 5).cellA ∧ 0 ≤ clueAt g9 (edgeAt g9 5).cellA.toNat ∧
        clueAt g9 (edgeAt g9 5).cellA.toNat <
          s9.cellEdgeCount.getD (edgeAt g9 5).cellA.toNat 0 + 1) →
      (applyDecision g9 s9 5 1).2.cellEdgeCount =
        incCell s9.cellEdgeCount (edgeAt g9 5).cellA) :=
  claim9_amended g9 s9 5 rfl
    ⟨by decide, by decide, by decide, by decide, by decide⟩
    (by decide) (by decide) (by decide)

/-- Claim C1 (code bug): find-all does not report every valid
assignment.  On the 1x2 clueless grid the loop around the left cell is
a valid assignment (clue counts vacuous, all degrees 0 or 2, non-empty
and connected), yet no solution the find-all run records carries it:
`isCanonicalSolution`'s partial horizontal-reflection filter discards
it in favour of its mirror image. -/
theorem claim1_code_bug :
    ValidAssignment g12 leftLoopEs ∧
    ∀ sol ∈ solverRun g12 true 32 300, sol.edgeState ≠ leftLoopEs := by
  constructor
  · refine ⟨by decide, by decide, ⟨0, by decide, by decide⟩, ?_⟩
    have hmem : ∀ p, p < numPoints g12 → onDegOf g12 leftLoopEs p = 2 →
        p = 0 ∨ p = 1 ∨ p = 3 ∨ p = 4 := by decide
    have h01 : OnAdjRel g12 leftLoopEs 0 1 := ⟨0, by decide, by decide, by decide⟩
    have h03 : OnAdjRel g12 leftLoopEs 0 3 := ⟨4, by decide, by decide, by decide⟩
    have h14 : OnAdjRel g12 leftLoopEs 1 4 := ⟨5, by decide, by decide, by decide⟩
    have r0 : ∀ p, p = 0 ∨ p = 1 ∨ p = 3 ∨ p = 4 → OnReach g12 leftLoopEs 0 p := by
      intro p hp
      rcases hp with rfl | rfl | rfl | rfl
      · exact Relation.ReflTransGen.refl
      · exact Relation.ReflTransGen.single h01
      · exact Relation.ReflTransGen.single h03
      · exact Relation.ReflTransGen.trans (Relation.ReflTransGen.single h01)
          (Relation.ReflTransGen.single h14)
    intro p q hp hq hdp hdq
    exact Relation.ReflTransGen.trans
      (onReach_symm g12 leftLoopEs (r0 p (hmem p hp hdp)))
      (r0 q (hmem q hq hdq))
  · decide

end Slitherlink
